import Mathlib

/-! # gr-ltetrigger: the PSS tracking block (`lib/pss_impl.cc`)

A shallow embedding of `pss_impl::compute_moving_avg`, `pss_impl::incr_score`,
`pss_impl::reset_score` and `pss_impl::general_work`.

Conventions of the embedding.

* C++ `int` members are `Int`; the write counters are `Nat`. No member comes
  near the width of its machine type in the runs considered here (a score is at
  most `d_track_after_n_frames` once that is positive), so no wrap-around is
  modelled.
* `float` values are rationals (exact arithmetic); a `float` occupies
  `sizeof_float = 4` bytes, which is what `std::memset` counts in.
* The srsLTE primitives are external: what they return in one invocation is
  part of the input of that invocation (`work_input`), and the number of calls
  of `srslte_pss_synch_reset` is counted in the field `pss_resets`.
* `assert` is taken as compiled in (no `NDEBUG`).
-/

namespace ltetrigger

/-! ## Data model -/

/-- Constants declared in `pss_impl.h`, a file that is not among the sources;
they are parameters of the model. `float_low_bytes_zeroed k x` is the value a
`float` holding `x` has after its first `k` bytes (`0 < k < 4`) were set to
zero: it depends on the byte order of the machine and is left open. -/
structure pss_consts where
  symbol_sz : Nat
  slot_length : Nat
  half_frame_length : Nat
  moving_avg_sz : Nat
  float_low_bytes_zeroed : Nat → ℚ → ℚ

/-- Size in bytes of a `float`. -/
def sizeof_float : Nat := 4

/-- Modelled from the spec: the struct `tracking_t` of `pss_impl.h` (its
declaration is missing from the sources). The spec gives it a lock flag, read
by the conversion to `bool`, a score and a timer. -/
structure tracking_t where
  is_tracking : Bool
  score : Int
  timer : Int
deriving DecidableEq, Repr

/-- Modelled from the spec: `tracking_t::start()` is missing from the sources;
the spec says that on reaching `maxScore` the machine "transitions to Locked,
sets timer = 0". -/
def tracking_t.start (t : tracking_t) : tracking_t :=
  { t with is_tracking := true, timer := 0 }

/-- Modelled from the spec: `tracking_t::stop()` is missing from the sources;
the spec says that `resetScore` "transitions out of Locked". -/
def tracking_t.stop (t : tracking_t) : tracking_t :=
  { t with is_tracking := false }

/-- The members of `pss_impl` that the modelled functions read or write.
`d_channel_estimation_buffer` is written only by `srslte_pss_synch_chest` and
by a `memset`, and read by none of the modelled code: it is left out.
`pss_resets` counts the calls of `srslte_pss_synch_reset(&d_pss)`. -/
structure pss_impl where
  d_N_id_2 : Int
  d_psr_threshold : ℚ
  d_track_after_n_frames : Int
  d_track_every_n_frames : Int
  d_tracking : tracking_t
  d_psr : ℚ
  d_psr_max : ℚ
  d_peak_pos : Int
  d_psr_data : List ℚ
  d_psr_i : Nat
  d_cfo_data : List ℚ
  d_cfo_i : Nat
  d_cfo_last_freq : ℚ
  d_tracking_lost : Bool
  pss_resets : Nat
deriving DecidableEq, Repr

/-- Modelled from the spec: the default member initialisers are in
`pss_impl.h`, missing from the sources. The constructor stores its four
arguments; the spec starts the tracker Unlocked with score 0, the rings empty
and no LostEvent pending. -/
def pss_impl.make (c : pss_consts) (N_id_2 : Int) (psr_threshold : ℚ)
    (track_after track_every : Int) : pss_impl :=
  { d_N_id_2 := N_id_2
    d_psr_threshold := psr_threshold
    d_track_after_n_frames := track_after
    d_track_every_n_frames := track_every
    d_tracking := { is_tracking := false, score := 0, timer := 0 }
    d_psr := 0
    d_psr_max := 0
    d_peak_pos := 0
    d_psr_data := List.replicate c.moving_avg_sz 0
    d_psr_i := 0
    d_cfo_data := List.replicate c.moving_avg_sz 0
    d_cfo_i := 0
    d_cfo_last_freq := 0
    d_tracking_lost := false
    pss_resets := 0 }

/-! ## `compute_moving_avg` (lines 94-109) -/

/-- Sum of `data[0], ..., data[npts-1]`, the loop of lines 105-106. -/
def accumulate (data : List ℚ) (npts : Nat) : ℚ :=
  (List.range npts).foldl (fun accumulator i => accumulator + data.getD i 0) 0

/-- The function `pss_impl::compute_moving_avg`. -/
def compute_moving_avg (c : pss_consts) (data : List ℚ) (npts : Nat) : ℚ :=
  if npts = 0 then 0
  else
    let npts1 := if npts > c.moving_avg_sz then c.moving_avg_sz else npts
    accumulate data npts1 / npts1

/-! ## `std::memset` on an array of `float` -/

/-- What `std::memset(data, 0, n)` leaves in the element of index `i` that held
`x`: the `n` bytes set to zero are the bytes `0 .. n-1` of the array, and the
element `i` occupies the bytes `4*i .. 4*i+3`. -/
def memset_elem (c : pss_consts) (n i : Nat) (x : ℚ) : ℚ :=
  if sizeof_float * (i + 1) ≤ n then 0
  else if sizeof_float * i < n then c.float_low_bytes_zeroed (n - sizeof_float * i) x
  else x

/-- The call `std::memset(data, 0, n)` on an array of `float`: `n` counts
bytes. -/
def memset_zero (c : pss_consts) (data : List ℚ) (n : Nat) : List ℚ :=
  (List.range data.length).map (fun i => memset_elem c n i (data.getD i 0))

/-! ## `incr_score` (lines 111-127) and `reset_score` (lines 129-152)

Both are called on `d_tracking` only, so they are functions of the instance. -/

/-- The function `pss_impl::incr_score`, called with `tracking = d_tracking`. -/
def incr_score (s : pss_impl) : pss_impl :=
  let max_score := s.d_track_after_n_frames
  if s.d_tracking.is_tracking = true ∧ s.d_tracking.score = max_score then s
  else
    let s1 := { s with d_tracking := { s.d_tracking with score := s.d_tracking.score + 1 } }
    if s1.d_tracking.is_tracking = false ∧ s1.d_tracking.score = max_score then
      { s1 with d_tracking := s1.d_tracking.start, pss_resets := s1.pss_resets + 1 }
    else s1

/-- The function `pss_impl::reset_score`, called with `tracking = d_tracking`. -/
def reset_score (c : pss_consts) (s : pss_impl) : pss_impl :=
  if s.d_tracking.score = 0 then s
  else
    { s with
      d_tracking := ({ s.d_tracking with score := 0, timer := 0 } : tracking_t).stop
      pss_resets := s.pss_resets + 1
      d_psr_data := memset_zero c s.d_psr_data c.moving_avg_sz
      d_psr_i := 0
      d_cfo_data := memset_zero c s.d_cfo_data c.moving_avg_sz
      d_cfo_last_freq := 0
      d_cfo_i := 0
      d_tracking_lost := true }

/-! ## `general_work` (lines 154-223) -/

/-- What one invocation of `general_work` receives: the number of available
input items, the samples behind the pointer `in` (indexed from the pointer, so
that negative indices are the history), and what the srsLTE primitives return
if they are called in this invocation. -/
structure work_input (S : Type) where
  ninput_items : Int
  inp : Int → S
  find_pss_peak_pos : Int
  find_pss_psr : ℚ
  cfo_compute : List S → ℚ
  cfo_correct : ℚ → List S → ℚ → ℚ × List S
  chest : List S → Int

/-- How an invocation ends: it returns `noutput_items`, or the `assert` of
line 191 fails, or the `std::runtime_error` of line 209 is thrown. -/
inductive outcome where
  | returned (noutput_items : Int)
  | assert_failed
  | runtime_error
deriving DecidableEq, Repr

/-- The effects of one invocation: the instance afterwards, the samples
written by `std::copy`, the output buffer after the correction in place, the
argument of `consume_each` (if it was called), whether `add_item_tag` was
called with the key `tracking_lost`, and how the invocation ended. -/
structure work_result (S : Type) where
  state : pss_impl
  copied : List S
  out : List S
  consumed : Option Int
  tag_added : Bool
  ending : outcome

/-- Lines 163-172: run the search, or count the timer down. -/
def search_phase {S : Type} (c : pss_consts) (s : pss_impl) (w : work_input S) : pss_impl :=
  if s.d_tracking.is_tracking = false ∨ s.d_tracking.timer = 0 then
    { s with
      d_tracking := { s.d_tracking with timer := s.d_track_every_n_frames }
      d_peak_pos := w.find_pss_peak_pos
      d_psr := w.find_pss_psr
      d_psr_data := s.d_psr_data.set (s.d_psr_i % c.moving_avg_sz) w.find_pss_psr
      d_psr_i := s.d_psr_i + 1 }
  else
    { s with d_tracking := { s.d_tracking with timer := s.d_tracking.timer - 1 } }

/-- Line 174: `psr_over_threshold`, on the instance left by `search_phase`. -/
def psr_over_threshold (s : pss_impl) : Bool :=
  decide (s.d_psr > s.d_psr_threshold)

/-- Lines 176-182: update the score and the maximum of the metric. -/
def score_phase (c : pss_consts) (s : pss_impl) : pss_impl :=
  let s1 := if psr_over_threshold s = true then incr_score s else reset_score c s
  if s1.d_psr > s1.d_psr_max then { s1 with d_psr_max := s1.d_psr } else s1

/-- Modelled from the spec: `mean_cfo()` is declared in `pss_impl.h`, missing
from the sources; the spec has the pipeline "compute the ring's mean" of the
Offset Ring. -/
def mean_cfo (c : pss_consts) (s : pss_impl) : ℚ :=
  compute_moving_avg c s.d_cfo_data s.d_cfo_i

/-- The range `[&in[frame_start], &in[frame_start + n])` read by `std::copy`. -/
def copy_range {S : Type} (inp : Int → S) (frame_start : Int) (n : Nat) : List S :=
  (List.range n).map (fun (j : Nat) => inp (frame_start + (j : Int)))

/-- Lines 184-222, on the instance left by `score_phase`; `over` is
`psr_over_threshold` of line 174. -/
def output_phase {S : Type} (c : pss_consts) (s : pss_impl) (over : Bool)
    (w : work_input S) : work_result S :=
  if over = true ∨ s.d_tracking_lost = true then
    let frame_start : Int := s.d_peak_pos - (c.slot_length : Int)
    let s1 := { s with d_peak_pos := (c.slot_length : Int) }
    let noutput_items : Int := (c.half_frame_length : Int)
    let nconsume : Int := frame_start + noutput_items
    if nconsume < w.ninput_items then
      let out := copy_range w.inp frame_start c.half_frame_length
      if s1.d_tracking.is_tracking = true then
        let pss_start := c.slot_length - c.symbol_sz
        let cfo := w.cfo_compute (out.drop pss_start)
        let s2 := { s1 with
          d_cfo_data := s1.d_cfo_data.set (s1.d_cfo_i % c.moving_avg_sz) cfo
          d_cfo_i := s1.d_cfo_i + 1 }
        let corrected := w.cfo_correct s2.d_cfo_last_freq out (-(mean_cfo c s2) / (c.symbol_sz : ℚ))
        let s3 := { s2 with d_cfo_last_freq := corrected.1 }
        if w.chest (corrected.2.drop (c.slot_length - c.symbol_sz)) ≠ 0 then
          { state := s3, copied := out, out := corrected.2, consumed := some nconsume,
            tag_added := false, ending := outcome.runtime_error }
        else
          { state := s3, copied := out, out := corrected.2, consumed := some nconsume,
            tag_added := false, ending := outcome.returned noutput_items }
      else
        { state := { s1 with d_tracking_lost := false }, copied := out, out := out,
          consumed := some nconsume, tag_added := true,
          ending := outcome.returned noutput_items }
    else
      { state := s1, copied := [], out := [], consumed := none, tag_added := false,
        ending := outcome.assert_failed }
  else
    { state := s, copied := [], out := [], consumed := some (c.half_frame_length : Int),
      tag_added := false, ending := outcome.returned 0 }

/-- The function `pss_impl::general_work`. -/
def general_work {S : Type} (c : pss_consts) (s : pss_impl) (w : work_input S) :
    work_result S :=
  let s1 := search_phase c s w
  output_phase c (score_phase c s1) (psr_over_threshold s1) w

/-! ## Runs and derived quantities -/

/-- Line 184: the invocation takes the aligned path when the metric is over the
threshold or `d_tracking_lost` is set once the score is updated. -/
def aligned_path {S : Type} (c : pss_consts) (s : pss_impl) (w : work_input S) : Prop :=
  psr_over_threshold (search_phase c s w) = true ∨
    (score_phase c (search_phase c s w)).d_tracking_lost = true

instance {S : Type} (c : pss_consts) (s : pss_impl) (w : work_input S) :
    Decidable (aligned_path c s w) := by
  unfold aligned_path
  infer_instance

/-- Line 185: `frame_start = d_peak_pos - slot_length`, with the peak position
in force once the search was run or skipped. -/
def frame_start {S : Type} (c : pss_consts) (s : pss_impl) (w : work_input S) : Int :=
  (score_phase c (search_phase c s w)).d_peak_pos - (c.slot_length : Int)

/-- A loss transition: `reset_score` is called (the metric is not over the
threshold) on a non-zero score, which it takes to 0. -/
def loss_transition {S : Type} (c : pss_consts) (s : pss_impl) (w : work_input S) : Bool :=
  !psr_over_threshold (search_phase c s w) &&
    decide ((search_phase c s w).d_tracking.score ≠ 0)

/-- The instance after `n` consecutive calls of `incr_score`. -/
def incr_score_times (n : Nat) (s : pss_impl) : pss_impl :=
  Nat.iterate incr_score n s

/-- Successive invocations of `general_work`, one per input, each on what the
one before left of the instance; the run stops at the first invocation that
does not return. -/
def work_run {S : Type} (c : pss_consts) : pss_impl → List (work_input S) → List (work_result S)
  | _, [] => []
  | s, w :: ws =>
    let r := general_work c s w
    r :: (match r.ending with
      | outcome.returned _ => work_run c r.state ws
      | _ => [])

/-- Lines 174-179 on a given reading of the metric: the reading is in `d_psr`,
it is compared with the threshold, and `incr_score` or `reset_score` is
called. -/
def metric_step (c : pss_consts) (s : pss_impl) (reading : ℚ) : pss_impl :=
  let s1 := { s with d_psr := reading }
  if psr_over_threshold s1 = true then incr_score s1 else reset_score c s1

/-- The instances after each of a sequence of metric steps, in order. -/
def metric_run (c : pss_consts) : pss_impl → List ℚ → List pss_impl
  | _, [] => []
  | s, r :: rs => metric_step c s r :: metric_run c (metric_step c s r) rs

/-- One write into a ring through its write counter, as in lines 169 and 201:
`data[i++ % moving_avg_sz] = v`. -/
def ring_write (c : pss_consts) (ring : List ℚ × Nat) (v : ℚ) : List ℚ × Nat :=
  (ring.1.set (ring.2 % c.moving_avg_sz) v, ring.2 + 1)

/-- Successive writes into a ring, in order. -/
def ring_writes (c : pss_consts) (ring : List ℚ × Nat) (vs : List ℚ) : List ℚ × Nat :=
  vs.foldl (ring_write c) ring

/-- The search ran in the invocation: the write counter of the quality ring,
which line 169 increments after the call of `srslte_pss_synch_find_pss`, is up
by one at line 174. -/
def search_ran {S : Type} (c : pss_consts) (s : pss_impl) (w : work_input S) : Prop :=
  (search_phase c s w).d_psr_i = s.d_psr_i + 1

/-- The instance after successive invocations of `general_work`, one per
input. -/
def state_after {S : Type} (c : pss_consts) : pss_impl → List (work_input S) → pss_impl
  | s, [] => s
  | s, w :: ws => state_after c (general_work c s w).state ws

/-- The instances an initial instance `s0` can be taken to by invocations of
`general_work` on inputs over the samples `S`. -/
inductive reachable (S : Type) (c : pss_consts) (s0 : pss_impl) : pss_impl → Prop where
  | start : reachable S c s0 s0
  | work (s : pss_impl) (w : work_input S) :
      reachable S c s0 s → reachable S c s0 (general_work c s w).state

/-- The predicate of the tracking state: `0 <= score <= maxScore`,
`timer >= 0`, and Locked if and only if `score == maxScore`. -/
def tracking_inv (s : pss_impl) : Prop :=
  0 ≤ s.d_tracking.score ∧ s.d_tracking.score ≤ s.d_track_after_n_frames ∧
    0 ≤ s.d_tracking.timer ∧
    (s.d_tracking.is_tracking = true ↔ s.d_tracking.score = s.d_track_after_n_frames)

/-! ## Concrete instances used to evaluate the model -/

/-- A small frame geometry: 2 samples per symbol, 4 per slot, 8 per half frame,
rings of 8 entries. -/
def small_consts : pss_consts :=
  { symbol_sz := 2, slot_length := 4, half_frame_length := 8, moving_avg_sz := 8,
    float_low_bytes_zeroed := fun _ x => x }

/-- A fresh instance with threshold 1/2, `track_after = 3`, `track_every = 4`. -/
def fresh : pss_impl := pss_impl.make small_consts 0 (1 / 2) 3 4

/-- A Locked instance (score 3 of 3) whose two rings are full of non-zero
values. -/
def locked_full : pss_impl :=
  { fresh with
    d_tracking := { is_tracking := true, score := 3, timer := 0 }
    d_psr := 9 / 10
    d_psr_max := 9 / 10
    d_peak_pos := 4
    d_psr_data := [1, 2, 3, 4, 5, 6, 7, 8]
    d_psr_i := 11
    d_cfo_data := [8, 7, 6, 5, 4, 3, 2, 1]
    d_cfo_i := 9
    d_cfo_last_freq := 1 / 4
    pss_resets := 1 }

/-- An input window over integer samples, `in[i] = i`, with `n` items
available, a search that returns the peak position `pos` and the metric `psr`,
and primitives that leave the frame as it is and report no failure. -/
def window (n pos : Int) (psr : ℚ) : work_input Int :=
  { ninput_items := n
    inp := fun i => i
    find_pss_peak_pos := pos
    find_pss_psr := psr
    cfo_compute := fun _ => 0
    cfo_correct := fun last out _ => (last, out)
    chest := fun _ => 0 }

/-- The instance `locked_full` leaves after an invocation in which the search
runs and returns the peak position 5 with the metric 9/10. -/
def after_search : pss_impl :=
  (general_work small_consts locked_full (window 20 5 (9 / 10))).state

/-! ## Lemmas -/

/-! ### `incr_score` -/

theorem incr_score_max (s : pss_impl) :
    (incr_score s).d_track_after_n_frames = s.d_track_after_n_frames := by
  unfold incr_score
  simp only
  split_ifs <;> rfl

theorem incr_score_locked (s : pss_impl) (hl : s.d_tracking.is_tracking = true)
    (hs : s.d_tracking.score = s.d_track_after_n_frames) : incr_score s = s := by
  unfold incr_score
  simp [hl, hs]

theorem incr_score_below (s : pss_impl) (hl : s.d_tracking.is_tracking = false)
    (hs : s.d_tracking.score + 1 ≠ s.d_track_after_n_frames) :
    (incr_score s).d_tracking.score = s.d_tracking.score + 1 ∧
      (incr_score s).d_tracking.is_tracking = false := by
  unfold incr_score
  simp [hl, hs]

theorem incr_score_reach (s : pss_impl) (hl : s.d_tracking.is_tracking = false)
    (hs : s.d_tracking.score + 1 = s.d_track_after_n_frames) :
    (incr_score s).d_tracking.score = s.d_track_after_n_frames ∧
      (incr_score s).d_tracking.is_tracking = true := by
  unfold incr_score
  simp [hl, hs, tracking_t.start]

theorem incr_score_times_succ (n : Nat) (s : pss_impl) :
    incr_score_times (n + 1) s = incr_score (incr_score_times n s) := by
  unfold incr_score_times
  exact Function.iterate_succ_apply' incr_score n s

theorem incr_score_times_max (n : Nat) (s : pss_impl) :
    (incr_score_times n s).d_track_after_n_frames = s.d_track_after_n_frames := by
  induction n with
  | zero => rfl
  | succ n ih => rw [incr_score_times_succ, incr_score_max, ih]

theorem incr_score_keeps (s : pss_impl) :
    (incr_score s).d_peak_pos = s.d_peak_pos ∧
    (incr_score s).d_tracking_lost = s.d_tracking_lost := by
  unfold incr_score
  simp only
  split_ifs <;> exact ⟨rfl, rfl⟩

/-! ### `reset_score` and `std::memset` -/

theorem reset_score_zero (c : pss_consts) (s : pss_impl) (h : s.d_tracking.score = 0) :
    reset_score c s = s := by
  unfold reset_score
  rw [if_pos h]

theorem reset_score_peak_pos (c : pss_consts) (s : pss_impl) :
    (reset_score c s).d_peak_pos = s.d_peak_pos := by
  unfold reset_score
  split_ifs <;> rfl

/-- What `reset_score` leaves, on a non-zero score, in the score, the timer,
the lock, the write indices, the carry-over and the pending flag. -/
theorem reset_score_scalars (c : pss_consts) (s : pss_impl) (h : s.d_tracking.score ≠ 0) :
    (reset_score c s).d_tracking = { is_tracking := false, score := 0, timer := 0 } ∧
    (reset_score c s).d_psr_i = 0 ∧ (reset_score c s).d_cfo_i = 0 ∧
    (reset_score c s).d_cfo_last_freq = 0 ∧ (reset_score c s).d_tracking_lost = true ∧
    (reset_score c s).pss_resets = s.pss_resets + 1 := by
  unfold reset_score
  simp [h, tracking_t.stop]

/-- After `reset_score` a tracker that was Locked only on a non-zero score is
Unlocked. -/
theorem reset_score_unlocked (c : pss_consts) (s : pss_impl)
    (hinv : s.d_tracking.is_tracking = true → s.d_tracking.score ≠ 0) :
    (reset_score c s).d_tracking.is_tracking = false := by
  by_cases h0 : s.d_tracking.score = 0
  · rw [reset_score_zero c s h0]
    cases hl : s.d_tracking.is_tracking
    · rfl
    · exact absurd h0 (hinv hl)
  · rw [(reset_score_scalars c s h0).1]

theorem memset_zero_getD (c : pss_consts) (data : List ℚ) (n i : Nat) (hi : i < data.length) :
    (memset_zero c data n).getD i 0 = memset_elem c n i (data.getD i 0) := by
  unfold memset_zero
  rw [List.getD_eq_getElem?_getD, List.getElem?_map, List.getElem?_range hi]
  rfl

/-- An element that starts at or after byte `n` keeps its value through
`memset(data, 0, n)`. -/
theorem memset_zero_keeps (c : pss_consts) (data : List ℚ) (n i : Nat) (hi : i < data.length)
    (hn : n ≤ sizeof_float * i) : (memset_zero c data n).getD i 0 = data.getD i 0 := by
  rw [memset_zero_getD c data n i hi]
  unfold memset_elem
  unfold sizeof_float at *
  rw [if_neg (by omega), if_neg (by omega)]

/-- With rings of `moving_avg_sz >= 2` entries, `reset_score` leaves the last
entry of either ring as it was. -/
theorem reset_score_keeps_last (c : pss_consts) (s : pss_impl) (h : s.d_tracking.score ≠ 0)
    (hm : 2 ≤ c.moving_avg_sz) (hp : s.d_psr_data.length = c.moving_avg_sz)
    (hc : s.d_cfo_data.length = c.moving_avg_sz) :
    (reset_score c s).d_psr_data.getD (c.moving_avg_sz - 1) 0 =
        s.d_psr_data.getD (c.moving_avg_sz - 1) 0 ∧
    (reset_score c s).d_cfo_data.getD (c.moving_avg_sz - 1) 0 =
        s.d_cfo_data.getD (c.moving_avg_sz - 1) 0 := by
  have e1 : (reset_score c s).d_psr_data = memset_zero c s.d_psr_data c.moving_avg_sz := by
    unfold reset_score
    simp [h]
  have e2 : (reset_score c s).d_cfo_data = memset_zero c s.d_cfo_data c.moving_avg_sz := by
    unfold reset_score
    simp [h]
  rw [e1, e2]
  constructor
  · exact memset_zero_keeps c _ _ _ (by omega) (by unfold sizeof_float; omega)
  · exact memset_zero_keeps c _ _ _ (by omega) (by unfold sizeof_float; omega)

/-! ### The phases of `general_work` -/

theorem search_phase_keeps {S : Type} (c : pss_consts) (s : pss_impl) (w : work_input S) :
    (search_phase c s w).d_tracking.score = s.d_tracking.score ∧
    (search_phase c s w).d_tracking.is_tracking = s.d_tracking.is_tracking ∧
    (search_phase c s w).d_tracking_lost = s.d_tracking_lost ∧
    (search_phase c s w).d_psr_threshold = s.d_psr_threshold ∧
    (search_phase c s w).d_track_after_n_frames = s.d_track_after_n_frames := by
  unfold search_phase
  split_ifs <;> exact ⟨rfl, rfl, rfl, rfl, rfl⟩

/-- An Unlocked tracker runs the search: the metric and the peak position are
the ones the search returns. -/
theorem search_phase_unlocked {S : Type} (c : pss_consts) (s : pss_impl) (w : work_input S)
    (hu : s.d_tracking.is_tracking = false) :
    (search_phase c s w).d_psr = w.find_pss_psr ∧
    (search_phase c s w).d_peak_pos = w.find_pss_peak_pos := by
  unfold search_phase
  rw [if_pos (Or.inl hu)]
  exact ⟨rfl, rfl⟩

/-- The update of `d_psr_max` (lines 181-182) touches nothing else. -/
theorem score_phase_keeps (c : pss_consts) (s : pss_impl) :
    (score_phase c s).d_tracking =
      (if psr_over_threshold s = true then incr_score s else reset_score c s).d_tracking ∧
    (score_phase c s).d_tracking_lost =
      (if psr_over_threshold s = true then incr_score s else reset_score c s).d_tracking_lost ∧
    (score_phase c s).d_peak_pos = s.d_peak_pos := by
  unfold score_phase
  simp only
  refine ⟨?_, ?_, ?_⟩
  · split_ifs <;> rfl
  · split_ifs <;> rfl
  · split_ifs <;> simp [(incr_score_keeps s).1, reset_score_peak_pos c s]

/-- The peak position behind `frame_start`: the one the search returns when it
runs (tracker Unlocked or timer 0), the stored one when the search is
skipped. -/
theorem frame_start_eq {S : Type} (c : pss_consts) (s : pss_impl) (w : work_input S) :
    frame_start c s w =
      (if s.d_tracking.is_tracking = false ∨ s.d_tracking.timer = 0
        then w.find_pss_peak_pos else s.d_peak_pos) - (c.slot_length : Int) := by
  unfold frame_start
  rw [(score_phase_keeps c _).2.2]
  unfold search_phase
  split_ifs <;> rfl

theorem copy_range_length {S : Type} (inp : Int → S) (a : Int) (n : Nat) :
    (copy_range inp a n).length = n := by
  unfold copy_range
  simp

theorem copy_range_getElem? {S : Type} (inp : Int → S) (a : Int) (n j : Nat) (hj : j < n) :
    (copy_range inp a n)[j]? = some (inp (a + (j : Int))) := by
  unfold copy_range
  rw [List.getElem?_map, List.getElem?_range hj]
  rfl

/-! ### The three ways through `output_phase` -/

theorem output_phase_drop {S : Type} (c : pss_consts) (s : pss_impl) (over : Bool)
    (w : work_input S) (h : ¬ (over = true ∨ s.d_tracking_lost = true)) :
    output_phase c s over w =
      { state := s, copied := [], out := [], consumed := some (c.half_frame_length : Int),
        tag_added := false, ending := outcome.returned 0 } := by
  unfold output_phase
  rw [if_neg h]

theorem output_phase_assert {S : Type} (c : pss_consts) (s : pss_impl) (over : Bool)
    (w : work_input S) (h : over = true ∨ s.d_tracking_lost = true)
    (hb : ¬ (s.d_peak_pos - (c.slot_length : Int) + (c.half_frame_length : Int)
      < w.ninput_items)) :
    output_phase c s over w =
      { state := { s with d_peak_pos := (c.slot_length : Int) }, copied := [], out := [],
        consumed := none, tag_added := false, ending := outcome.assert_failed } := by
  unfold output_phase
  simp only [if_pos h, if_neg hb]

theorem output_phase_unlocked {S : Type} (c : pss_consts) (s : pss_impl) (over : Bool)
    (w : work_input S) (h : over = true ∨ s.d_tracking_lost = true)
    (hb : s.d_peak_pos - (c.slot_length : Int) + (c.half_frame_length : Int) < w.ninput_items)
    (hu : s.d_tracking.is_tracking = false) :
    output_phase c s over w =
      { state := { s with d_peak_pos := (c.slot_length : Int), d_tracking_lost := false },
        copied := copy_range w.inp (s.d_peak_pos - (c.slot_length : Int)) c.half_frame_length,
        out := copy_range w.inp (s.d_peak_pos - (c.slot_length : Int)) c.half_frame_length,
        consumed := some (s.d_peak_pos - (c.slot_length : Int) + (c.half_frame_length : Int)),
        tag_added := true, ending := outcome.returned (c.half_frame_length : Int) } := by
  unfold output_phase
  simp [if_pos h, if_pos hb, hu]

/-- On the aligned path with the `assert` passed and the tracker Locked: the
copy, the consumption, no tag, and the ending decided by the channel
estimation. -/
theorem output_phase_locked {S : Type} (c : pss_consts) (s : pss_impl) (over : Bool)
    (w : work_input S) (h : over = true ∨ s.d_tracking_lost = true)
    (hb : s.d_peak_pos - (c.slot_length : Int) + (c.half_frame_length : Int) < w.ninput_items)
    (hl : s.d_tracking.is_tracking = true) :
    (output_phase c s over w).copied =
        copy_range w.inp (s.d_peak_pos - (c.slot_length : Int)) c.half_frame_length ∧
    (output_phase c s over w).consumed =
        some (s.d_peak_pos - (c.slot_length : Int) + (c.half_frame_length : Int)) ∧
    (output_phase c s over w).tag_added = false ∧
    (output_phase c s over w).state.d_tracking = s.d_tracking ∧
    (output_phase c s over w).state.d_tracking_lost = s.d_tracking_lost ∧
    ((output_phase c s over w).ending = outcome.returned (c.half_frame_length : Int) ∨
      (output_phase c s over w).ending = outcome.runtime_error) ∧
    ((∀ l, w.chest l = 0) →
      (output_phase c s over w).ending = outcome.returned (c.half_frame_length : Int)) := by
  unfold output_phase
  simp only [if_pos h, if_pos hb, hl, if_true]
  split_ifs with hc
  · refine ⟨rfl, rfl, rfl, rfl, rfl, Or.inr rfl, ?_⟩
    intro h0
    exact absurd (h0 _) hc
  · exact ⟨rfl, rfl, rfl, rfl, rfl, Or.inl rfl, fun _ => rfl⟩

/-! ### Whole invocations -/

/-- The tag is added exactly on the aligned path, past the `assert`, when the
tracker is not Locked once the score is updated: the branch of lines 210-214
does not look at `d_tracking_lost`. -/
theorem tag_added_iff {S : Type} (c : pss_consts) (s : pss_impl) (w : work_input S) :
    (general_work c s w).tag_added = true ↔
      aligned_path c s w ∧ frame_start c s w + (c.half_frame_length : Int) < w.ninput_items ∧
        (score_phase c (search_phase c s w)).d_tracking.is_tracking = false := by
  unfold general_work aligned_path frame_start
  simp only
  by_cases h : psr_over_threshold (search_phase c s w) = true ∨
      (score_phase c (search_phase c s w)).d_tracking_lost = true
  · by_cases hb : (score_phase c (search_phase c s w)).d_peak_pos - (c.slot_length : Int) +
        (c.half_frame_length : Int) < w.ninput_items
    · cases hu : (score_phase c (search_phase c s w)).d_tracking.is_tracking
      · rw [output_phase_unlocked c _ _ w h hb hu]
        simp [h, hb]
      · have := (output_phase_locked c _ _ w h hb hu).2.2.1
        rw [this]
        simp
    · rw [output_phase_assert c _ _ w h hb]
      simp [hb]
  · rw [output_phase_drop c _ _ w h]
    simp [h]

/-- On the aligned path the invocation ends on the failed `assert` exactly when
`frame_start + half_frame_length` is not below `ninput_items[0]`. -/
theorem assert_failed_iff {S : Type} (c : pss_consts) (s : pss_impl) (w : work_input S)
    (hal : aligned_path c s w) :
    (general_work c s w).ending = outcome.assert_failed ↔
      w.ninput_items ≤ frame_start c s w + (c.half_frame_length : Int) := by
  unfold general_work frame_start
  unfold aligned_path at hal
  simp only
  by_cases hb : (score_phase c (search_phase c s w)).d_peak_pos - (c.slot_length : Int) +
      (c.half_frame_length : Int) < w.ninput_items
  · have hn : ¬ (w.ninput_items ≤ (score_phase c (search_phase c s w)).d_peak_pos -
        (c.slot_length : Int) + (c.half_frame_length : Int)) := not_le.mpr hb
    cases hu : (score_phase c (search_phase c s w)).d_tracking.is_tracking
    · rw [output_phase_unlocked c _ _ w hal hb hu]
      simp [hn]
    · rcases (output_phase_locked c _ _ w hal hb hu).2.2.2.2.2.1 with e | e <;>
        rw [e] <;> simp [hn]
  · rw [output_phase_assert c _ _ w hal hb]
    simp only [true_iff]
    exact not_lt.mp hb

/-- On the aligned path with the `assert` passed: what is copied, what is
consumed, and how the invocation can end. -/
theorem aligned_effects {S : Type} (c : pss_consts) (s : pss_impl) (w : work_input S)
    (hal : aligned_path c s w)
    (hb : frame_start c s w + (c.half_frame_length : Int) < w.ninput_items) :
    (general_work c s w).copied = copy_range w.inp (frame_start c s w) c.half_frame_length ∧
    (general_work c s w).consumed = some (frame_start c s w + (c.half_frame_length : Int)) ∧
    ((general_work c s w).ending = outcome.returned (c.half_frame_length : Int) ∨
      (general_work c s w).ending = outcome.runtime_error) ∧
    ((∀ l, w.chest l = 0) →
      (general_work c s w).ending = outcome.returned (c.half_frame_length : Int)) := by
  unfold general_work
  unfold aligned_path at hal
  unfold frame_start at hb ⊢
  simp only
  cases hu : (score_phase c (search_phase c s w)).d_tracking.is_tracking
  · rw [output_phase_unlocked c _ _ w hal hb hu]
    exact ⟨rfl, rfl, Or.inl rfl, fun _ => rfl⟩
  · have h := output_phase_locked c _ _ w hal hb hu
    exact ⟨h.1, h.2.1, h.2.2.2.2.2.1, h.2.2.2.2.2.2⟩

/-- One invocation on an Unlocked instance with score 0 and nothing pending,
when the search returns a metric that is not over the threshold: it returns 0
and leaves the instance Unlocked with score 0, nothing pending and the same
threshold. -/
theorem under_threshold_step {S : Type} (c : pss_consts) (s : pss_impl) (w : work_input S)
    (h0 : s.d_tracking.score = 0) (hu : s.d_tracking.is_tracking = false)
    (hl : s.d_tracking_lost = false) (hw : ¬ (w.find_pss_psr > s.d_psr_threshold)) :
    (general_work c s w).ending = outcome.returned 0 ∧
    (general_work c s w).state.d_tracking.score = 0 ∧
    (general_work c s w).state.d_tracking.is_tracking = false ∧
    (general_work c s w).state.d_tracking_lost = false ∧
    (general_work c s w).state.d_psr_threshold = s.d_psr_threshold := by
  have hk := search_phase_keeps c s w
  have hno : psr_over_threshold (search_phase c s w) = false := by
    unfold psr_over_threshold
    rw [(search_phase_unlocked c s w hu).1, hk.2.2.2.1]
    exact decide_eq_false hw
  have h01 : (search_phase c s w).d_tracking.score = 0 := by rw [hk.1]; exact h0
  have hsp := score_phase_keeps c (search_phase c s w)
  simp only [hno, Bool.false_eq_true, if_false, reset_score_zero c _ h01] at hsp
  have hthr : (score_phase c (search_phase c s w)).d_psr_threshold = s.d_psr_threshold := by
    unfold score_phase
    simp only [hno, Bool.false_eq_true, if_false, reset_score_zero c _ h01]
    split_ifs
    · exact hk.2.2.2.1
    · exact hk.2.2.2.1
  have hlost : (score_phase c (search_phase c s w)).d_tracking_lost = false := by
    rw [hsp.2.1, hk.2.2.1]
    exact hl
  unfold general_work
  simp only
  rw [output_phase_drop c _ _ w (by simp [hno, hlost])]
  refine ⟨rfl, ?_, ?_, hlost, hthr⟩
  · show (score_phase c (search_phase c s w)).d_tracking.score = 0
    rw [hsp.1]
    exact h01
  · show (score_phase c (search_phase c s w)).d_tracking.is_tracking = false
    rw [hsp.1, hk.2.1]
    exact hu

/-! ## Claims -/

/-! ### C1: acquisition -/

/-- C1: for `maxScore = k >= 1`, from an Unlocked instance with score 0, after
`i` consecutive calls of `incr_score` the score is `i` and the tracker is
Unlocked for every `i < k`; after `k` calls, and after any larger number of
calls, the score is `k` and the tracker is Locked. -/
theorem incr_score_run (s : pss_impl) (k : Nat) (hk : 1 ≤ k)
    (hmax : s.d_track_after_n_frames = (k : Int))
    (hscore : s.d_tracking.score = 0) (hunl : s.d_tracking.is_tracking = false) (i : Nat) :
    (i < k → (incr_score_times i s).d_tracking.score = (i : Int) ∧
        (incr_score_times i s).d_tracking.is_tracking = false) ∧
    (k ≤ i → (incr_score_times i s).d_tracking.score = (k : Int) ∧
        (incr_score_times i s).d_tracking.is_tracking = true) := by
  induction i with
  | zero =>
    refine ⟨fun _ => ⟨by simpa [incr_score_times] using hscore, by simpa [incr_score_times] using hunl⟩, ?_⟩
    intro h
    omega
  | succ n ih =>
    have hm := incr_score_times_max n s
    rw [incr_score_times_succ]
    rcases Nat.lt_or_ge n k with hn | hn
    · obtain ⟨h1, h2⟩ := ih.1 hn
      constructor
      · intro hlt
        have := incr_score_below (incr_score_times n s) h2 (by rw [h1, hm, hmax]; omega)
        rw [h1] at this
        exact ⟨by rw [this.1]; push_cast; rfl, this.2⟩
      · intro hge
        have := incr_score_reach (incr_score_times n s) h2 (by rw [h1, hm, hmax]; omega)
        rw [hm, hmax] at this
        exact this
    · obtain ⟨h1, h2⟩ := ih.2 hn
      rw [incr_score_locked _ h2 (by rw [h1, hm, hmax])]
      exact ⟨fun hlt => by omega, fun _ => ⟨h1, h2⟩⟩

theorem incr_score_run_witness :
    (1 ≤ 3) ∧ fresh.d_track_after_n_frames = ((3 : Nat) : Int) ∧
      fresh.d_tracking.score = 0 ∧ fresh.d_tracking.is_tracking = false ∧
      ((2 < 3 → (incr_score_times 2 fresh).d_tracking.score = ((2 : Nat) : Int) ∧
          (incr_score_times 2 fresh).d_tracking.is_tracking = false) ∧
       (3 ≤ 2 → (incr_score_times 2 fresh).d_tracking.score = ((3 : Nat) : Int) ∧
          (incr_score_times 2 fresh).d_tracking.is_tracking = true)) :=
  ⟨by decide, rfl, rfl, rfl, incr_score_run fresh 3 (by decide) rfl rfl rfl 2⟩

/-! ### C2: `reset_score` and the rings -/

/-- C2 (the code at the failing input): on the Locked instance `locked_full`,
whose rings of 8 entries hold 1..8 and 8..1, `reset_score` sets score and timer
to 0, unlocks, zeroes both write indices and the carry-over and sets the
pending flag, but zeroes only the first two entries of each ring: the `memset`
calls of lines 143 and 147 clear `moving_avg_sz` bytes, not `moving_avg_sz`
floats. -/
theorem reset_score_clears_a_quarter :
    locked_full.d_tracking.is_tracking = true ∧
    (reset_score small_consts locked_full).d_tracking =
      { is_tracking := false, score := 0, timer := 0 } ∧
    (reset_score small_consts locked_full).d_psr_i = 0 ∧
    (reset_score small_consts locked_full).d_cfo_i = 0 ∧
    (reset_score small_consts locked_full).d_cfo_last_freq = 0 ∧
    (reset_score small_consts locked_full).d_tracking_lost = true ∧
    (reset_score small_consts locked_full).d_psr_data = [0, 0, 3, 4, 5, 6, 7, 8] ∧
    (reset_score small_consts locked_full).d_cfo_data = [0, 0, 6, 5, 4, 3, 2, 1] := by
  decide

/-! ### C3: the `tracking_lost` tag -/

/-- C3 (the code at the failing input): on a fresh instance (score 0,
Unlocked, nothing pending) an invocation whose metric 9/10 is over the
threshold 1/2 returns one frame and adds the `tracking_lost` tag, although no
loss transition happened in it (`reset_score` is not even called). -/
theorem tag_added_without_loss :
    fresh.d_tracking.score = 0 ∧ fresh.d_tracking_lost = false ∧
    psr_over_threshold (search_phase small_consts fresh (window 20 4 (9 / 10))) = true ∧
    loss_transition small_consts fresh (window 20 4 (9 / 10)) = false ∧
    (general_work small_consts fresh (window 20 4 (9 / 10))).ending = outcome.returned 8 ∧
    (general_work small_consts fresh (window 20 4 (9 / 10))).tag_added = true := by
  norm_num [general_work, output_phase, score_phase, search_phase, psr_over_threshold,
    loss_transition, incr_score, reset_score, fresh, window, small_consts, pss_impl.make]

/-! ### C4, C5: the bounds check of line 191 -/

/-- C4 (counterexample): a search that puts the peak at position 3 of a window
with slots of 4 samples gives `frame_start = -1 < 0`; the invocation, on the
aligned path, does not fail: it returns a frame of 8 samples that starts one
sample into the history. -/
theorem negative_frame_start_passes :
    aligned_path small_consts fresh (window 20 3 (9 / 10)) ∧
    frame_start small_consts fresh (window 20 3 (9 / 10)) < 0 ∧
    (general_work small_consts fresh (window 20 3 (9 / 10))).ending = outcome.returned 8 ∧
    (general_work small_consts fresh (window 20 3 (9 / 10))).copied =
      [-1, 0, 1, 2, 3, 4, 5, 6] := by
  norm_num [general_work, output_phase, score_phase, search_phase, psr_over_threshold,
    aligned_path, frame_start, incr_score, reset_score, fresh, window, small_consts,
    pss_impl.make, copy_range]
  decide

/-- C4 (amended): on the aligned path, if `frame_start + half_frame_length`
exceeds the number of available items `ninput_items[0]`, the invocation ends on
the failed `assert` of line 191, having copied nothing, consumed nothing and
added no tag. -/
theorem overrun_fails {S : Type} (c : pss_consts) (s : pss_impl) (w : work_input S)
    (hal : aligned_path c s w)
    (hov : w.ninput_items < frame_start c s w + (c.half_frame_length : Int)) :
    (general_work c s w).ending = outcome.assert_failed ∧
    (general_work c s w).copied = [] ∧ (general_work c s w).out = [] ∧
    (general_work c s w).consumed = none ∧ (general_work c s w).tag_added = false := by
  unfold general_work
  unfold aligned_path at hal
  unfold frame_start at hov
  simp only
  rw [output_phase_assert c _ _ w hal (by omega)]
  exact ⟨rfl, rfl, rfl, rfl, rfl⟩

theorem overrun_fails_witness :
    aligned_path small_consts fresh (window 8 8 (9 / 10)) ∧
    (window 8 8 (9 / 10)).ninput_items <
      frame_start small_consts fresh (window 8 8 (9 / 10)) +
        (small_consts.half_frame_length : Int) ∧
    ((general_work small_consts fresh (window 8 8 (9 / 10))).ending = outcome.assert_failed ∧
     (general_work small_consts fresh (window 8 8 (9 / 10))).copied = [] ∧
     (general_work small_consts fresh (window 8 8 (9 / 10))).out = [] ∧
     (general_work small_consts fresh (window 8 8 (9 / 10))).consumed = none ∧
     (general_work small_consts fresh (window 8 8 (9 / 10))).tag_added = false) :=
  have hal : aligned_path small_consts fresh (window 8 8 (9 / 10)) := by
    norm_num [aligned_path, score_phase, search_phase, psr_over_threshold, fresh, window,
      small_consts, pss_impl.make]
  have hov : (window 8 8 (9 / 10)).ninput_items <
      frame_start small_consts fresh (window 8 8 (9 / 10)) +
        (small_consts.half_frame_length : Int) := by
    norm_num [frame_start, score_phase, search_phase, psr_over_threshold, incr_score,
      fresh, window, small_consts, pss_impl.make]
  ⟨hal, hov, overrun_fails small_consts fresh (window 8 8 (9 / 10)) hal hov⟩

/-- C5 (counterexample): with `frame_start = 0` and exactly
`frame_start + half_frame_length = 8` items available, the `assert` of line
191, which is strict, fails. -/
theorem exact_fit_fails :
    aligned_path small_consts fresh (window 8 4 (9 / 10)) ∧
    0 ≤ frame_start small_consts fresh (window 8 4 (9 / 10)) ∧
    frame_start small_consts fresh (window 8 4 (9 / 10)) +
      (small_consts.half_frame_length : Int) ≤ (window 8 4 (9 / 10)).ninput_items ∧
    (general_work small_consts fresh (window 8 4 (9 / 10))).ending = outcome.assert_failed := by
  norm_num [general_work, output_phase, score_phase, search_phase, psr_over_threshold,
    aligned_path, frame_start, incr_score, reset_score, fresh, window, small_consts,
    pss_impl.make]

/-- C5 (amended): on the aligned path, if `frame_start >= 0` and
`frame_start + half_frame_length` is strictly below `ninput_items[0]`, the
`assert` of line 191 passes: the invocation does not end on it, and it copies
and consumes. -/
theorem strict_fit_passes {S : Type} (c : pss_consts) (s : pss_impl) (w : work_input S)
    (hal : aligned_path c s w) (_h0 : 0 ≤ frame_start c s w)
    (hlt : frame_start c s w + (c.half_frame_length : Int) < w.ninput_items) :
    (general_work c s w).ending ≠ outcome.assert_failed ∧
    (general_work c s w).consumed = some (frame_start c s w + (c.half_frame_length : Int)) := by
  unfold general_work
  unfold aligned_path at hal
  unfold frame_start at hlt ⊢
  simp only
  cases hu : (score_phase c (search_phase c s w)).d_tracking.is_tracking
  · rw [output_phase_unlocked c _ _ w hal hlt hu]
    simp
  · have h := output_phase_locked c _ _ w hal hlt hu
    refine ⟨?_, h.2.1⟩
    rcases h.2.2.2.2.2.1 with e | e <;> rw [e] <;> simp

theorem strict_fit_passes_witness :
    aligned_path small_consts fresh (window 9 4 (9 / 10)) ∧
    0 ≤ frame_start small_consts fresh (window 9 4 (9 / 10)) ∧
    frame_start small_consts fresh (window 9 4 (9 / 10)) +
      (small_consts.half_frame_length : Int) < (window 9 4 (9 / 10)).ninput_items ∧
    ((general_work small_consts fresh (window 9 4 (9 / 10))).ending ≠ outcome.assert_failed ∧
     (general_work small_consts fresh (window 9 4 (9 / 10))).consumed =
       some (frame_start small_consts fresh (window 9 4 (9 / 10)) +
         (small_consts.half_frame_length : Int))) :=
  have hal : aligned_path small_consts fresh (window 9 4 (9 / 10)) := by
    norm_num [aligned_path, score_phase, search_phase, psr_over_threshold, fresh, window,
      small_consts, pss_impl.make]
  have h0 : 0 ≤ frame_start small_consts fresh (window 9 4 (9 / 10)) := by
    norm_num [frame_start, score_phase, search_phase, psr_over_threshold, incr_score,
      fresh, window, small_consts, pss_impl.make]
  have hlt : frame_start small_consts fresh (window 9 4 (9 / 10)) +
      (small_consts.half_frame_length : Int) < (window 9 4 (9 / 10)).ninput_items := by
    norm_num [frame_start, score_phase, search_phase, psr_over_threshold, incr_score,
      fresh, window, small_consts, pss_impl.make]
  ⟨hal, h0, hlt, strict_fit_passes small_consts fresh (window 9 4 (9 / 10)) hal h0 hlt⟩

/-! ### C6, C7: copy and consumption -/

/-- C6: on the aligned path with the bounds check of line 191 passed, where
`frame_start` is the peak position in force minus `slot_length`: `std::copy`
writes `half_frame_length` samples, the `j`-th being `in[frame_start + j]`;
`consume_each` is called with `frame_start + half_frame_length`; and the
invocation returns `half_frame_length`, the one other ending being the
exception of line 209, which is not thrown when the channel estimation reports
no failure. -/
theorem aligned_frame {S : Type} (c : pss_consts) (s : pss_impl) (w : work_input S)
    (hal : aligned_path c s w)
    (hb : frame_start c s w + (c.half_frame_length : Int) < w.ninput_items) :
    frame_start c s w =
      (if s.d_tracking.is_tracking = false ∨ s.d_tracking.timer = 0
        then w.find_pss_peak_pos else s.d_peak_pos) - (c.slot_length : Int) ∧
    (general_work c s w).copied = copy_range w.inp (frame_start c s w) c.half_frame_length ∧
    (general_work c s w).copied.length = c.half_frame_length ∧
    (∀ j : Nat, j < c.half_frame_length →
      (general_work c s w).copied[j]? = some (w.inp (frame_start c s w + (j : Int)))) ∧
    (general_work c s w).consumed = some (frame_start c s w + (c.half_frame_length : Int)) ∧
    ((general_work c s w).ending = outcome.returned (c.half_frame_length : Int) ∨
      (general_work c s w).ending = outcome.runtime_error) ∧
    ((∀ l, w.chest l = 0) →
      (general_work c s w).ending = outcome.returned (c.half_frame_length : Int)) := by
  have hcopy := aligned_effects c s w hal hb
  refine ⟨frame_start_eq c s w, hcopy.1, ?_, ?_, hcopy.2.1, hcopy.2.2.1, hcopy.2.2.2⟩
  · rw [hcopy.1, copy_range_length]
  · intro j hj
    rw [hcopy.1, copy_range_getElem? _ _ _ _ hj]

theorem aligned_frame_witness :
    aligned_path small_consts fresh (window 20 5 (9 / 10)) ∧
    frame_start small_consts fresh (window 20 5 (9 / 10)) +
      (small_consts.half_frame_length : Int) < (window 20 5 (9 / 10)).ninput_items ∧
    (general_work small_consts fresh (window 20 5 (9 / 10))).copied =
      copy_range (window 20 5 (9 / 10)).inp
        (frame_start small_consts fresh (window 20 5 (9 / 10)))
        small_consts.half_frame_length ∧
    (general_work small_consts fresh (window 20 5 (9 / 10))).consumed =
      some (frame_start small_consts fresh (window 20 5 (9 / 10)) +
        (small_consts.half_frame_length : Int)) :=
  have hal : aligned_path small_consts fresh (window 20 5 (9 / 10)) := by
    norm_num [aligned_path, score_phase, search_phase, psr_over_threshold, fresh, window,
      small_consts, pss_impl.make]
  have hb : frame_start small_consts fresh (window 20 5 (9 / 10)) +
      (small_consts.half_frame_length : Int) < (window 20 5 (9 / 10)).ninput_items := by
    norm_num [frame_start, score_phase, search_phase, psr_over_threshold, incr_score,
      fresh, window, small_consts, pss_impl.make]
  have h := aligned_frame small_consts fresh (window 20 5 (9 / 10)) hal hb
  ⟨hal, hb, h.2.1, h.2.2.2.2.1⟩

/-- C7 (counterexample): with no item available (`ninput_items[0] = 0`) and a
metric under the threshold, the invocation takes the drop path, returns 0 and
calls `consume_each(8)`: it consumes more than is available. -/
theorem drop_consumes_unavailable :
    (general_work small_consts fresh (window 0 4 (1 / 5))).ending = outcome.returned 0 ∧
    (general_work small_consts fresh (window 0 4 (1 / 5))).consumed = some 8 ∧
    (window 0 4 (1 / 5)).ninput_items < 8 := by
  norm_num [general_work, output_phase, score_phase, search_phase, psr_over_threshold,
    incr_score, reset_score, fresh, window, small_consts, pss_impl.make]

/-- C7 (amended): an invocation that returns has called `consume_each` with a
count that is at most `ninput_items[0]`, on the aligned path always, and on
the drop path when at least `half_frame_length` items are available. -/
theorem consumed_le_available {S : Type} (c : pss_consts) (s : pss_impl) (w : work_input S)
    (n : Int) (hret : (general_work c s w).ending = outcome.returned n)
    (h : aligned_path c s w ∨ (c.half_frame_length : Int) ≤ w.ninput_items) :
    ∃ k : Int, (general_work c s w).consumed = some k ∧ k ≤ w.ninput_items := by
  by_cases hal : aligned_path c s w
  · have hna : ¬ (w.ninput_items ≤ frame_start c s w + (c.half_frame_length : Int)) := by
      intro hle
      rw [(assert_failed_iff c s w hal).mpr hle] at hret
      exact outcome.noConfusion hret
    have hb : frame_start c s w + (c.half_frame_length : Int) < w.ninput_items :=
      not_le.mp hna
    exact ⟨_, (aligned_effects c s w hal hb).2.1, le_of_lt hb⟩
  · have hle : (c.half_frame_length : Int) ≤ w.ninput_items := h.resolve_left hal
    refine ⟨(c.half_frame_length : Int), ?_, hle⟩
    unfold general_work
    unfold aligned_path at hal
    simp only
    rw [output_phase_drop c _ _ w hal]

theorem consumed_le_available_witness :
    (general_work small_consts fresh (window 20 4 (1 / 5))).ending = outcome.returned 0 ∧
    (aligned_path small_consts fresh (window 20 4 (1 / 5)) ∨
      (small_consts.half_frame_length : Int) ≤ (window 20 4 (1 / 5)).ninput_items) ∧
    ∃ k : Int, (general_work small_consts fresh (window 20 4 (1 / 5))).consumed = some k ∧
      k ≤ (window 20 4 (1 / 5)).ninput_items :=
  have hret : (general_work small_consts fresh (window 20 4 (1 / 5))).ending =
      outcome.returned 0 := by
    norm_num [general_work, output_phase, score_phase, search_phase, psr_over_threshold,
      incr_score, reset_score, fresh, window, small_consts, pss_impl.make]
  have h : aligned_path small_consts fresh (window 20 4 (1 / 5)) ∨
      (small_consts.half_frame_length : Int) ≤ (window 20 4 (1 / 5)).ninput_items :=
    Or.inr (by norm_num [small_consts, window])
  ⟨hret, h, consumed_le_available small_consts fresh (window 20 4 (1 / 5)) 0 hret h⟩

/-! ### C8: metric not over the threshold -/

/-- C8 (counterexample): the Locked instance `locked_full` (score 3, timer 0)
runs the search, which returns the metric 1/5, not over the threshold 1/2, and
the peak position 40 in a window of 20 items: `reset_score` schedules the
LostEvent, the invocation takes the aligned path and ends on the failed
`assert` of line 191. -/
theorem loss_can_fail_assert :
    psr_over_threshold (search_phase small_consts locked_full (window 20 40 (1 / 5))) = false ∧
    (general_work small_consts locked_full (window 20 40 (1 / 5))).ending =
      outcome.assert_failed := by
  norm_num [general_work, output_phase, score_phase, search_phase, psr_over_threshold,
    incr_score, reset_score, locked_full, fresh, window, small_consts, pss_impl.make,
    tracking_t.stop]

/-- C8 (amended): an invocation whose metric is not over the threshold, on
an instance that is Locked only with a non-zero score, never throws the
channel-estimation exception; it returns 0, whatever the peak position, when
the score was 0 with no LostEvent pending; and it returns whenever
`frame_start + half_frame_length` is below `ninput_items[0]`. -/
theorem under_threshold_returns {S : Type} (c : pss_consts) (s : pss_impl) (w : work_input S)
    (hno : psr_over_threshold (search_phase c s w) = false)
    (hinv : s.d_tracking.is_tracking = true → s.d_tracking.score ≠ 0) :
    (general_work c s w).ending ≠ outcome.runtime_error ∧
    (s.d_tracking.score = 0 ∧ s.d_tracking_lost = false →
      (general_work c s w).ending = outcome.returned 0) ∧
    (frame_start c s w + (c.half_frame_length : Int) < w.ninput_items →
      ∃ n : Int, (general_work c s w).ending = outcome.returned n) := by
  have hk := search_phase_keeps c s w
  have hsp := score_phase_keeps c (search_phase c s w)
  simp only [hno, Bool.false_eq_true, if_false] at hsp
  have hinv1 : (search_phase c s w).d_tracking.is_tracking = true →
      (search_phase c s w).d_tracking.score ≠ 0 := by
    rw [hk.1, hk.2.1]
    exact hinv
  have hunl : (score_phase c (search_phase c s w)).d_tracking.is_tracking = false := by
    rw [hsp.1]
    exact reset_score_unlocked c _ hinv1
  have hways : ¬ aligned_path c s w ∧ (general_work c s w).ending = outcome.returned 0 ∨
      aligned_path c s w ∧ (general_work c s w).ending = outcome.assert_failed ∧
        ¬ (frame_start c s w + (c.half_frame_length : Int) < w.ninput_items) ∨
      aligned_path c s w ∧
        (general_work c s w).ending = outcome.returned (c.half_frame_length : Int) := by
    by_cases hal : aligned_path c s w
    · by_cases hb : frame_start c s w + (c.half_frame_length : Int) < w.ninput_items
      · refine Or.inr (Or.inr ⟨hal, ?_⟩)
        unfold general_work
        unfold aligned_path at hal
        unfold frame_start at hb
        simp only
        rw [output_phase_unlocked c _ _ w hal hb hunl]
      · exact Or.inr (Or.inl ⟨hal, (assert_failed_iff c s w hal).mpr (not_lt.mp hb), hb⟩)
    · refine Or.inl ⟨hal, ?_⟩
      unfold general_work
      unfold aligned_path at hal
      simp only
      rw [output_phase_drop c _ _ w hal]
  refine ⟨?_, ?_, ?_⟩
  · rcases hways with ⟨_, e⟩ | ⟨_, e, _⟩ | ⟨_, e⟩ <;> rw [e] <;> simp
  · rintro ⟨h0, hl⟩
    have hlost : (score_phase c (search_phase c s w)).d_tracking_lost = false := by
      rw [hsp.2.1, reset_score_zero c _ (by rw [hk.1]; exact h0), hk.2.2.1]
      exact hl
    have hna : ¬ aligned_path c s w := by
      unfold aligned_path
      simp [hno, hlost]
    rcases hways with ⟨_, e⟩ | ⟨hal, _⟩ | ⟨hal, _⟩
    · exact e
    · exact absurd hal hna
    · exact absurd hal hna
  · intro hb
    rcases hways with ⟨_, e⟩ | ⟨_, _, hnb⟩ | ⟨_, e⟩
    · exact ⟨0, e⟩
    · exact absurd hb hnb
    · exact ⟨_, e⟩

theorem under_threshold_returns_witness :
    psr_over_threshold (search_phase small_consts fresh (window 0 40 (1 / 5))) = false ∧
    (fresh.d_tracking.is_tracking = true → fresh.d_tracking.score ≠ 0) ∧
    (fresh.d_tracking.score = 0 ∧ fresh.d_tracking_lost = false) ∧
    (general_work small_consts fresh (window 0 40 (1 / 5))).ending ≠ outcome.runtime_error ∧
    (general_work small_consts fresh (window 0 40 (1 / 5))).ending = outcome.returned 0 :=
  have hno : psr_over_threshold (search_phase small_consts fresh (window 0 40 (1 / 5))) =
      false := by
    norm_num [search_phase, psr_over_threshold, fresh, window, small_consts, pss_impl.make]
  have hinv : fresh.d_tracking.is_tracking = true → fresh.d_tracking.score ≠ 0 := by
    decide
  have h0 : fresh.d_tracking.score = 0 ∧ fresh.d_tracking_lost = false := ⟨rfl, rfl⟩
  have h := under_threshold_returns small_consts fresh (window 0 40 (1 / 5)) hno hinv
  ⟨hno, hinv, h0, h.1, h.2.1 h0⟩

/-! ### C9: the production count -/

/-- C9: with a positive `half_frame_length`, an invocation off the aligned path
returns 0 and consumes exactly `half_frame_length` items; an invocation on the
aligned path returns `half_frame_length` unless it ends on the `assert` or the
exception; so a returned count is `half_frame_length` or 0, and it is
`half_frame_length` exactly on the aligned path (metric over the threshold, or
LostEvent pending once the score is updated). -/
theorem production_count {S : Type} (c : pss_consts) (s : pss_impl) (w : work_input S)
    (hpos : 0 < c.half_frame_length) :
    (¬ aligned_path c s w → (general_work c s w).ending = outcome.returned 0 ∧
      (general_work c s w).consumed = some (c.half_frame_length : Int) ∧
      (general_work c s w).copied = []) ∧
    (aligned_path c s w →
      frame_start c s w + (c.half_frame_length : Int) < w.ninput_items →
      (∀ l, w.chest l = 0) →
      (general_work c s w).ending = outcome.returned (c.half_frame_length : Int)) ∧
    (∀ n : Int, (general_work c s w).ending = outcome.returned n →
      (n = (c.half_frame_length : Int) ∨ n = 0) ∧
      (n = (c.half_frame_length : Int) ↔ aligned_path c s w)) := by
  have hne : (c.half_frame_length : Int) ≠ 0 := by
    have : (0 : Int) < (c.half_frame_length : Int) := by exact_mod_cast hpos
    omega
  have hdrop : ¬ aligned_path c s w → (general_work c s w).ending = outcome.returned 0 ∧
      (general_work c s w).consumed = some (c.half_frame_length : Int) ∧
      (general_work c s w).copied = [] := by
    intro hal
    unfold general_work
    unfold aligned_path at hal
    simp only
    rw [output_phase_drop c _ _ w hal]
    exact ⟨rfl, rfl, rfl⟩
  refine ⟨hdrop, fun hal hb hc => (aligned_effects c s w hal hb).2.2.2 hc, ?_⟩
  intro n hret
  by_cases hal : aligned_path c s w
  · have hna : ¬ (w.ninput_items ≤ frame_start c s w + (c.half_frame_length : Int)) := by
      intro hle
      rw [(assert_failed_iff c s w hal).mpr hle] at hret
      exact outcome.noConfusion hret
    rcases (aligned_effects c s w hal (not_le.mp hna)).2.2.1 with e | e
    · rw [e] at hret
      have hn : n = (c.half_frame_length : Int) := (outcome.returned.inj hret).symm
      exact ⟨Or.inl hn, fun _ => hal, fun _ => hn⟩
    · rw [e] at hret
      exact outcome.noConfusion hret
  · rw [(hdrop hal).1] at hret
    have hn : n = 0 := (outcome.returned.inj hret).symm
    refine ⟨Or.inr hn, fun h => ?_, fun h => absurd h hal⟩
    rw [hn] at h
    exact absurd h.symm hne

theorem production_count_witness :
    0 < small_consts.half_frame_length ∧
    (¬ aligned_path small_consts fresh (window 20 4 (1 / 5)) →
      (general_work small_consts fresh (window 20 4 (1 / 5))).ending = outcome.returned 0 ∧
      (general_work small_consts fresh (window 20 4 (1 / 5))).consumed =
        some (small_consts.half_frame_length : Int) ∧
      (general_work small_consts fresh (window 20 4 (1 / 5))).copied = []) :=
  ⟨by decide, (production_count small_consts fresh (window 20 4 (1 / 5)) (by decide)).1⟩

/-! ### C10: readings under the threshold -/

/-- C10: from an Unlocked instance with score 0 and no LostEvent pending (the
initial instance is one), for every finite sequence of invocations in which
the search returns a metric that is not over the threshold, every invocation
returns, and after each of them the score is 0 and the tracker is Unlocked. -/
theorem under_threshold_run {S : Type} (c : pss_consts) (ws : List (work_input S)) :
    ∀ s : pss_impl, s.d_tracking.score = 0 → s.d_tracking.is_tracking = false →
      s.d_tracking_lost = false →
      (∀ w ∈ ws, ¬ (w.find_pss_psr > s.d_psr_threshold)) →
      (work_run c s ws).length = ws.length ∧
      ∀ r ∈ work_run c s ws, r.ending = outcome.returned 0 ∧
        r.state.d_tracking.score = 0 ∧ r.state.d_tracking.is_tracking = false := by
  induction ws with
  | nil =>
    intro s _ _ _ _
    exact ⟨rfl, fun r hr => by simp [work_run] at hr⟩
  | cons w ws ih =>
    intro s h0 hu hl hall
    have hstep := under_threshold_step c s w h0 hu hl (hall w (List.mem_cons_self w ws))
    have hrest := ih (general_work c s w).state hstep.2.1 hstep.2.2.1 hstep.2.2.2.1
      (fun v hv => by
        rw [hstep.2.2.2.2]
        exact hall v (List.mem_cons_of_mem w hv))
    have hrun : work_run c s (w :: ws) =
        general_work c s w :: work_run c (general_work c s w).state ws := by
      simp only [work_run, hstep.1]
    rw [hrun]
    constructor
    · simp [hrest.1]
    · intro r hr
      rcases List.mem_cons.mp hr with e | hr
      · rw [e]
        exact ⟨hstep.1, hstep.2.1, hstep.2.2.1⟩
      · exact hrest.2 r hr

theorem under_threshold_run_witness :
    fresh.d_tracking.score = 0 ∧ fresh.d_tracking.is_tracking = false ∧
    fresh.d_tracking_lost = false ∧
    (∀ w ∈ [window 20 4 (1 / 5), window 20 7 (1 / 2)],
      ¬ (w.find_pss_psr > fresh.d_psr_threshold)) ∧
    ((work_run small_consts fresh [window 20 4 (1 / 5), window 20 7 (1 / 2)]).length =
        [window 20 4 (1 / 5), window 20 7 (1 / 2)].length ∧
      ∀ r ∈ work_run small_consts fresh [window 20 4 (1 / 5), window 20 7 (1 / 2)],
        r.ending = outcome.returned 0 ∧
        r.state.d_tracking.score = 0 ∧ r.state.d_tracking.is_tracking = false) :=
  have hall : ∀ w ∈ [window 20 4 (1 / 5), window 20 7 (1 / 2)],
      ¬ (w.find_pss_psr > fresh.d_psr_threshold) := by
    intro w hw
    simp only [List.mem_cons, List.mem_singleton, List.not_mem_nil, or_false] at hw
    rcases hw with e | e <;> rw [e] <;>
      norm_num [window, fresh, pss_impl.make]
  ⟨rfl, rfl, rfl, hall,
    under_threshold_run small_consts [window 20 4 (1 / 5), window 20 7 (1 / 2)] fresh
      rfl rfl rfl hall⟩

/-! ### C11: the end-to-end scenario -/

/-- C11: with threshold 1/2, `maxScore = 3` and period 4, the metric steps on
the readings 9/10, 9/10, 9/10, 9/10, 1/5, 9/10 from the initial instance leave
the scores 1, 2, 3, 3, 0, 1 and the lock flags F, F, T, T, F, F; the pending
flag `d_tracking_lost`, false at first, is false after each of the first four
steps and true after the fifth, the step of the reading 1/5, which is the one
step that changes it (the sixth, an `incr_score`, leaves it as it is). -/
theorem scenario_trace :
    fresh.d_psr_threshold = 1 / 2 ∧ fresh.d_track_after_n_frames = 3 ∧
    fresh.d_track_every_n_frames = 4 ∧
    (metric_run small_consts fresh [9 / 10, 9 / 10, 9 / 10, 9 / 10, 1 / 5, 9 / 10]).map
      (fun s => s.d_tracking.score) = [1, 2, 3, 3, 0, 1] ∧
    (metric_run small_consts fresh [9 / 10, 9 / 10, 9 / 10, 9 / 10, 1 / 5, 9 / 10]).map
      (fun s => s.d_tracking.is_tracking) = [false, false, true, true, false, false] ∧
    (fresh :: metric_run small_consts fresh [9 / 10, 9 / 10, 9 / 10, 9 / 10, 1 / 5, 9 / 10]).map
      (fun s => s.d_tracking_lost) = [false, false, false, false, false, true, true] := by
  norm_num [metric_run, metric_step, psr_over_threshold, incr_score, reset_score, fresh,
    small_consts, pss_impl.make, tracking_t.start, tracking_t.stop]

/-! ### C12: the mean over a ring -/

theorem accumulate_eq_sum (data : List ℚ) (n : Nat) :
    accumulate data n = ∑ i in Finset.range n, data.getD i 0 := by
  unfold accumulate
  induction n with
  | zero => simp
  | succ n ih => rw [List.range_succ, List.foldl_append, ih, Finset.sum_range_succ]; rfl

theorem ring_write_getD (c : pss_consts) (data : List ℚ) (k : Nat) (v : ℚ) (j : Nat)
    (hk : k % c.moving_avg_sz < data.length) :
    (ring_write c (data, k) v).1.getD j 0 =
      if j = k % c.moving_avg_sz then v else data.getD j 0 := by
  unfold ring_write
  simp only [List.getD_eq_getElem?_getD, List.getElem?_set]
  by_cases h : k % c.moving_avg_sz = j
  · subst h
    simp [hk]
  · have h2 : ¬ j = k % c.moving_avg_sz := fun e => h e.symm
    simp [h, h2]

theorem ring_writes_snoc (c : pss_consts) (ring : List ℚ × Nat) (vs : List ℚ) (v : ℚ) :
    ring_writes c ring (vs ++ [v]) = ring_write c (ring_writes c ring vs) v := by
  unfold ring_writes
  rw [List.foldl_append]
  rfl

/-- After the writes of `vs` into a ring of `moving_avg_sz` entries through a
counter that starts at 0: the counter is the number of writes, the ring has
its length, and the value of the `i`-th write is in the slot
`i % moving_avg_sz` for each of the last `moving_avg_sz` writes. -/
theorem ring_writes_slots (c : pss_consts) (data : List ℚ) (hlen : data.length = c.moving_avg_sz)
    (hpos : 0 < c.moving_avg_sz) (vs : List ℚ) :
    (ring_writes c (data, 0) vs).2 = vs.length ∧
    (ring_writes c (data, 0) vs).1.length = c.moving_avg_sz ∧
    ∀ i : Nat, i < vs.length → vs.length ≤ i + c.moving_avg_sz →
      (ring_writes c (data, 0) vs).1.getD (i % c.moving_avg_sz) 0 = vs.getD i 0 := by
  induction vs using List.reverseRecOn with
  | nil => exact ⟨rfl, hlen, fun i hi => absurd hi (Nat.not_lt_zero i)⟩
  | append_singleton vs v ih =>
    obtain ⟨h1, h2, h3⟩ := ih
    rw [ring_writes_snoc]
    have hr : ring_writes c (data, 0) vs = ((ring_writes c (data, 0) vs).1, vs.length) := by
      rw [← h1]
    rw [hr]
    have hslot : vs.length % c.moving_avg_sz < (ring_writes c (data, 0) vs).1.length := by
      rw [h2]
      exact Nat.mod_lt _ hpos
    refine ⟨by simp [ring_write], by simp [ring_write, h2], ?_⟩
    intro i hi hle
    rw [ring_write_getD c _ _ _ _ hslot]
    rw [List.length_append, List.length_singleton] at hi hle
    by_cases hiv : i = vs.length
    · subst hiv
      simp
    · have hi2 : i < vs.length := by omega
      have hne : ¬ (i % c.moving_avg_sz = vs.length % c.moving_avg_sz) := by
        intro e
        have hd : (vs.length - i) % c.moving_avg_sz = 0 :=
          Nat.sub_mod_eq_zero_of_mod_eq e.symm
        have hlt : vs.length - i < c.moving_avg_sz := by omega
        rw [Nat.mod_eq_of_lt hlt] at hd
        omega
      rw [if_neg hne, h3 i hi2 (by omega)]
      rw [List.getD_eq_getElem?_getD, List.getD_eq_getElem?_getD,
        List.getElem?_append_left hi2]


theorem sum_getD_range (vs : List ℚ) :
    ∑ i in Finset.range vs.length, vs.getD i 0 = vs.sum := by
  induction vs using List.reverseRecOn with
  | nil => simp
  | append_singleton vs v ih =>
    rw [List.length_append, List.length_singleton, Finset.sum_range_succ, List.sum_append,
      List.sum_singleton, ← ih]
    congr 1
    · refine Finset.sum_congr rfl (fun i hi => ?_)
      rw [Finset.mem_range] at hi
      rw [List.getD_eq_getElem?_getD, List.getD_eq_getElem?_getD, List.getElem?_append_left hi]
    · simp [List.getD_eq_getElem?_getD]

theorem sum_drop_eq (vs : List ℚ) (m : Nat) :
    (vs.drop m).sum = ∑ i in Finset.Ico m vs.length, vs.getD i 0 := by
  rw [← sum_getD_range (vs.drop m), Finset.sum_Ico_eq_sum_range, List.length_drop]
  refine Finset.sum_congr rfl (fun i _ => ?_)
  rw [List.getD_eq_getElem?_getD, List.getD_eq_getElem?_getD, List.getElem?_drop]

/-- The sum that `compute_moving_avg` takes over a ring written through its
counter is the sum of the last `min n moving_avg_sz` of the `n` values
written. -/
theorem accumulate_ring_writes (c : pss_consts) (data : List ℚ)
    (hlen : data.length = c.moving_avg_sz) (hpos : 0 < c.moving_avg_sz) (vs : List ℚ) :
    accumulate (ring_writes c (data, 0) vs).1 (min vs.length c.moving_avg_sz) =
      (vs.drop (vs.length - c.moving_avg_sz)).sum := by
  obtain ⟨_, _, h3⟩ := ring_writes_slots c data hlen hpos vs
  rw [accumulate_eq_sum, sum_drop_eq vs _]
  rcases Nat.le_total vs.length c.moving_avg_sz with hle | hge
  · rw [Nat.min_eq_left hle, Nat.sub_eq_zero_of_le hle, ← Finset.range_eq_Ico]
    refine Finset.sum_congr rfl (fun i hi => ?_)
    rw [Finset.mem_range] at hi
    have := h3 i hi (by omega)
    rwa [Nat.mod_eq_of_lt (by omega)] at this
  · rw [Nat.min_eq_right hge]
    have hico : Finset.Ico (vs.length - c.moving_avg_sz) vs.length =
        Finset.Ico (vs.length - c.moving_avg_sz) (vs.length - c.moving_avg_sz + c.moving_avg_sz) := by
      rw [Nat.sub_add_cancel hge]
    rw [← Nat.image_Ico_mod (vs.length - c.moving_avg_sz) c.moving_avg_sz,
      Finset.sum_image (fun x hx y hy e => Nat.mod_injOn_Ico _ _ (by exact_mod_cast hx) (by exact_mod_cast hy) e), ← hico]
    refine Finset.sum_congr rfl (fun i hi => ?_)
    rw [Finset.mem_Ico] at hi
    exact h3 i hi.2 (by omega)

/-- The mean that `compute_moving_avg` returns on a ring written through its
counter, with `npts` the counter: the sum of the last `min n moving_avg_sz` of
the `n` values written, over their number. -/
theorem moving_avg_ring_writes (c : pss_consts) (data : List ℚ)
    (hlen : data.length = c.moving_avg_sz) (hpos : 0 < c.moving_avg_sz) (vs : List ℚ) :
    compute_moving_avg c (ring_writes c (data, 0) vs).1 (ring_writes c (data, 0) vs).2 =
      (vs.drop (vs.length - c.moving_avg_sz)).sum /
        ((min vs.length c.moving_avg_sz : Nat) : ℚ) := by
  rw [(ring_writes_slots c data hlen hpos vs).1]
  unfold compute_moving_avg
  by_cases h0 : vs.length = 0
  · simp [h0]
  · rw [if_neg h0]
    have hmin : (if vs.length > c.moving_avg_sz then c.moving_avg_sz else vs.length) =
        min vs.length c.moving_avg_sz := by
      split_ifs with h
      · exact (Nat.min_eq_right (le_of_lt h)).symm
      · exact (Nat.min_eq_left (not_lt.mp h)).symm
    simp only [hmin]
    rw [accumulate_ring_writes c data hlen hpos vs]

/-- C12: a ring of `moving_avg_sz > 0` entries, whatever it holds, is written
through a counter that starts at 0 (slot = counter mod capacity), and
`compute_moving_avg` is called with `npts` the counter. With nothing written
it returns 0; with `0 < n <= moving_avg_sz` values written it returns their
sum over `n`; with `n > moving_avg_sz` values written it returns the sum of
the last `moving_avg_sz` values written, which are `moving_avg_sz` in number,
over `moving_avg_sz`. -/
theorem moving_avg_of_ring (c : pss_consts) (data : List ℚ)
    (hlen : data.length = c.moving_avg_sz) (hpos : 0 < c.moving_avg_sz) (vs : List ℚ) :
    (ring_writes c (data, 0) vs).2 = vs.length ∧
    compute_moving_avg c (ring_writes c (data, 0) []).1 (ring_writes c (data, 0) []).2 = 0 ∧
    (0 < vs.length → vs.length ≤ c.moving_avg_sz →
      compute_moving_avg c (ring_writes c (data, 0) vs).1 (ring_writes c (data, 0) vs).2 =
        vs.sum / (vs.length : ℚ)) ∧
    (c.moving_avg_sz < vs.length →
      (vs.drop (vs.length - c.moving_avg_sz)).length = c.moving_avg_sz ∧
      compute_moving_avg c (ring_writes c (data, 0) vs).1 (ring_writes c (data, 0) vs).2 =
        (vs.drop (vs.length - c.moving_avg_sz)).sum / (c.moving_avg_sz : ℚ)) := by
  have h := moving_avg_ring_writes c data hlen hpos vs
  refine ⟨(ring_writes_slots c data hlen hpos vs).1, rfl, ?_, ?_⟩
  · intro _ hle
    rw [h, Nat.min_eq_left hle, Nat.sub_eq_zero_of_le hle, List.drop_zero]
  · intro hlt
    refine ⟨?_, ?_⟩
    · rw [List.length_drop]
      omega
    · rw [h, Nat.min_eq_right (le_of_lt hlt)]

theorem moving_avg_of_ring_witness :
    (List.replicate 8 (0 : ℚ)).length = small_consts.moving_avg_sz ∧
    0 < small_consts.moving_avg_sz ∧ 0 < [(1 : ℚ), 2, 6].length ∧
    [(1 : ℚ), 2, 6].length ≤ small_consts.moving_avg_sz ∧
    compute_moving_avg small_consts
        (ring_writes small_consts (List.replicate 8 0, 0) [1, 2, 6]).1
        (ring_writes small_consts (List.replicate 8 0, 0) [1, 2, 6]).2 =
      [(1 : ℚ), 2, 6].sum / (([(1 : ℚ), 2, 6].length : Nat) : ℚ) :=
  ⟨by decide, by decide, by decide, by decide,
    (moving_avg_of_ring small_consts (List.replicate 8 0) (by decide) (by decide)
      [1, 2, 6]).2.2.1 (by decide) (by decide)⟩

/-! ### C13: the averaging reset of `incr_score` -/

/-- C13: `incr_score` calls `srslte_pss_synch_reset` once when it takes an
Unlocked tracker from score `maxScore - 1` to `maxScore`, and the tracker is
Locked afterwards; it does not call it in any other state, be the tracker
Locked or the score different from `maxScore - 1`. -/
theorem incr_score_resets (s : pss_impl) :
    (s.d_tracking.is_tracking = false ∧ s.d_tracking.score = s.d_track_after_n_frames - 1 →
      (incr_score s).pss_resets = s.pss_resets + 1 ∧
      (incr_score s).d_tracking.score = s.d_track_after_n_frames ∧
      (incr_score s).d_tracking.is_tracking = true) ∧
    (s.d_tracking.is_tracking = true ∨ s.d_tracking.score ≠ s.d_track_after_n_frames - 1 →
      (incr_score s).pss_resets = s.pss_resets) := by
  constructor
  · rintro ⟨hu, hs⟩
    have h1 : s.d_tracking.score + 1 = s.d_track_after_n_frames := by omega
    unfold incr_score
    simp [hu, h1, tracking_t.start]
  · intro h
    unfold incr_score
    simp only
    split_ifs with h1 h2
    · rfl
    · exfalso
      rcases h with h | h
      · simp [h] at h2
      · exact h (by have := h2.2; simp only at this; omega)
    · rfl

theorem incr_score_resets_witness :
    (locked_full.d_tracking.is_tracking = true ∨
      locked_full.d_tracking.score ≠ locked_full.d_track_after_n_frames - 1) ∧
    (incr_score locked_full).pss_resets = locked_full.pss_resets :=
  ⟨Or.inl rfl, (incr_score_resets locked_full).2 (Or.inl rfl)⟩

/-! ### C14: the predicate of the tracking state -/

theorem incr_score_config (s : pss_impl) :
    (incr_score s).d_psr = s.d_psr ∧
    (incr_score s).d_psr_threshold = s.d_psr_threshold ∧
    (incr_score s).d_track_after_n_frames = s.d_track_after_n_frames ∧
    (incr_score s).d_track_every_n_frames = s.d_track_every_n_frames := by
  unfold incr_score
  simp only
  split_ifs <;> exact ⟨rfl, rfl, rfl, rfl⟩

theorem reset_score_config (c : pss_consts) (s : pss_impl) :
    (reset_score c s).d_psr = s.d_psr ∧
    (reset_score c s).d_psr_threshold = s.d_psr_threshold ∧
    (reset_score c s).d_track_after_n_frames = s.d_track_after_n_frames ∧
    (reset_score c s).d_track_every_n_frames = s.d_track_every_n_frames := by
  unfold reset_score
  split_ifs <;> exact ⟨rfl, rfl, rfl, rfl⟩

theorem score_phase_config (c : pss_consts) (s : pss_impl) :
    (score_phase c s).d_psr = s.d_psr ∧
    (score_phase c s).d_psr_threshold = s.d_psr_threshold ∧
    (score_phase c s).d_track_after_n_frames = s.d_track_after_n_frames ∧
    (score_phase c s).d_track_every_n_frames = s.d_track_every_n_frames := by
  unfold score_phase
  simp only
  split_ifs
  · exact incr_score_config s
  · exact incr_score_config s
  · exact reset_score_config c s
  · exact reset_score_config c s

theorem search_phase_every {S : Type} (c : pss_consts) (s : pss_impl) (w : work_input S) :
    (search_phase c s w).d_track_every_n_frames = s.d_track_every_n_frames := by
  unfold search_phase
  split_ifs <;> rfl

/-- What `output_phase` never touches. -/
theorem output_phase_state {S : Type} (c : pss_consts) (s : pss_impl) (over : Bool)
    (w : work_input S) :
    (output_phase c s over w).state.d_tracking = s.d_tracking ∧
    (output_phase c s over w).state.d_psr = s.d_psr ∧
    (output_phase c s over w).state.d_psr_threshold = s.d_psr_threshold ∧
    (output_phase c s over w).state.d_track_after_n_frames = s.d_track_after_n_frames ∧
    (output_phase c s over w).state.d_track_every_n_frames = s.d_track_every_n_frames ∧
    (output_phase c s over w).state.d_psr_i = s.d_psr_i := by
  unfold output_phase
  simp only
  split_ifs <;> exact ⟨rfl, rfl, rfl, rfl, rfl, rfl⟩

/-- The tracking state, the metric and the configuration after an invocation
are those left by lines 163-182. -/
theorem work_state_eq {S : Type} (c : pss_consts) (s : pss_impl) (w : work_input S) :
    (general_work c s w).state.d_tracking = (score_phase c (search_phase c s w)).d_tracking ∧
    (general_work c s w).state.d_psr = (search_phase c s w).d_psr ∧
    (general_work c s w).state.d_psr_threshold = s.d_psr_threshold ∧
    (general_work c s w).state.d_track_after_n_frames = s.d_track_after_n_frames ∧
    (general_work c s w).state.d_track_every_n_frames = s.d_track_every_n_frames := by
  have ho := output_phase_state c (score_phase c (search_phase c s w))
    (psr_over_threshold (search_phase c s w)) w
  have hs := score_phase_config c (search_phase c s w)
  have hk := search_phase_keeps c s w
  unfold general_work
  simp only
  exact ⟨ho.1, by rw [ho.2.1, hs.1], by rw [ho.2.2.1, hs.2.1, hk.2.2.2.1],
    by rw [ho.2.2.2.1, hs.2.2.1, hk.2.2.2.2], by rw [ho.2.2.2.2.1, hs.2.2.2, search_phase_every]⟩

theorem search_phase_inv {S : Type} (c : pss_consts) (s : pss_impl) (w : work_input S)
    (hp : 0 ≤ s.d_track_every_n_frames) (h : tracking_inv s) :
    tracking_inv (search_phase c s w) := by
  obtain ⟨h1, h2, h3, h4⟩ := h
  unfold search_phase
  split_ifs with hc
  · exact ⟨h1, h2, hp, h4⟩
  · refine ⟨h1, h2, ?_, h4⟩
    have hne : s.d_tracking.timer ≠ 0 := fun e => hc (Or.inr e)
    show 0 ≤ s.d_tracking.timer - 1
    omega

theorem incr_score_inv (s : pss_impl) (h : tracking_inv s) : tracking_inv (incr_score s) := by
  obtain ⟨h1, h2, h3, h4⟩ := h
  cases hl : s.d_tracking.is_tracking
  · have hne : s.d_tracking.score ≠ s.d_track_after_n_frames := by
      intro e
      rw [h4.mpr e] at hl
      exact Bool.noConfusion hl
    by_cases hr : s.d_tracking.score + 1 = s.d_track_after_n_frames
    · have h5 := incr_score_reach s hl hr
      refine ⟨?_, ?_, ?_, ?_⟩
      · rw [h5.1]; omega
      · rw [h5.1, incr_score_max]
      · unfold incr_score
        simp [hl, hr, tracking_t.start]
      · rw [h5.1, h5.2, incr_score_max]
        simp
    · have h5 := incr_score_below s hl hr
      refine ⟨?_, ?_, ?_, ?_⟩
      · rw [h5.1]; omega
      · rw [h5.1, incr_score_max]; omega
      · unfold incr_score
        simp [hl, hr, h3]
      · rw [h5.1, h5.2, incr_score_max]
        simp [hr]
  · rw [incr_score_locked s hl (h4.mp hl)]
    exact ⟨h1, h2, h3, h4⟩

theorem reset_score_inv (c : pss_consts) (s : pss_impl)
    (hk : 1 ≤ s.d_track_after_n_frames) (h : tracking_inv s) :
    tracking_inv (reset_score c s) := by
  by_cases h0 : s.d_tracking.score = 0
  · rw [reset_score_zero c s h0]
    exact h
  · have ht := (reset_score_scalars c s h0).1
    have hm := (reset_score_config c s).2.2.1
    unfold tracking_inv
    rw [ht, hm]
    refine ⟨le_refl _, by show (0 : Int) ≤ _; omega, le_refl _, ?_⟩
    show (false = true ↔ (0 : Int) = s.d_track_after_n_frames)
    constructor
    · intro e
      exact Bool.noConfusion e
    · intro e
      omega

/-- One invocation keeps the predicate, for `maxScore >= 1` and a period
`>= 0`. -/
theorem work_inv {S : Type} (c : pss_consts) (s : pss_impl) (w : work_input S)
    (hk : 1 ≤ s.d_track_after_n_frames) (hp : 0 ≤ s.d_track_every_n_frames)
    (h : tracking_inv s) : tracking_inv (general_work c s w).state := by
  have hw := work_state_eq c s w
  have hk1 := search_phase_keeps c s w
  have h1 := search_phase_inv c s w hp h
  have h2 : tracking_inv (score_phase c (search_phase c s w)) := by
    have hsp := score_phase_keeps c (search_phase c s w)
    have hsc := score_phase_config c (search_phase c s w)
    have h3 : tracking_inv
        (if psr_over_threshold (search_phase c s w) = true then incr_score (search_phase c s w)
          else reset_score c (search_phase c s w)) := by
      split_ifs
      · exact incr_score_inv _ h1
      · exact reset_score_inv c _ (by rw [hk1.2.2.2.2]; exact hk) h1
    have hm : (if psr_over_threshold (search_phase c s w) = true
          then incr_score (search_phase c s w)
          else reset_score c (search_phase c s w)).d_track_after_n_frames =
        (search_phase c s w).d_track_after_n_frames := by
      split_ifs
      · exact incr_score_max _
      · exact (reset_score_config c _).2.2.1
    unfold tracking_inv at h3 ⊢
    rw [hsp.1, hsc.2.2.1, ← hm]
    exact h3
  have hsc := score_phase_config c (search_phase c s w)
  unfold tracking_inv at h2 ⊢
  rw [hw.1, hw.2.2.2.1, ← hk1.2.2.2.2, ← hsc.2.2.1]
  exact h2

/-- C14: for `maxScore = k >= 1` and a period `p >= 0`, the predicate
`0 <= score <= maxScore`, `timer >= 0`, Locked if and only if
`score == maxScore` holds of the initial instance, is kept by every invocation
of `general_work` (which keeps `maxScore` and the period as well), and so
holds of every instance reachable from the initial one. -/
theorem tracking_inv_always (c : pss_consts) (N_id_2 : Int) (thr : ℚ) (k p : Int)
    (hk : 1 ≤ k) (hp : 0 ≤ p) :
    tracking_inv (pss_impl.make c N_id_2 thr k p) ∧
    (∀ (S : Type) (s : pss_impl) (w : work_input S),
      s.d_track_after_n_frames = k → s.d_track_every_n_frames = p → tracking_inv s →
      tracking_inv (general_work c s w).state ∧
      (general_work c s w).state.d_track_after_n_frames = k ∧
      (general_work c s w).state.d_track_every_n_frames = p) ∧
    (∀ (S : Type) (s : pss_impl),
      reachable S c (pss_impl.make c N_id_2 thr k p) s → tracking_inv s) := by
  have hinit : tracking_inv (pss_impl.make c N_id_2 thr k p) := by
    unfold tracking_inv pss_impl.make
    simp only
    refine ⟨le_refl _, by omega, le_refl _, ?_⟩
    constructor
    · intro e
      exact Bool.noConfusion e
    · intro e
      omega
  have hstep : ∀ (S : Type) (s : pss_impl) (w : work_input S),
      s.d_track_after_n_frames = k → s.d_track_every_n_frames = p → tracking_inv s →
      tracking_inv (general_work c s w).state ∧
      (general_work c s w).state.d_track_after_n_frames = k ∧
      (general_work c s w).state.d_track_every_n_frames = p := by
    intro S s w hsk hsp hs
    have hw := work_state_eq c s w
    exact ⟨work_inv c s w (by rw [hsk]; exact hk) (by rw [hsp]; exact hp) hs,
      by rw [hw.2.2.2.1, hsk], by rw [hw.2.2.2.2, hsp]⟩
  refine ⟨hinit, hstep, ?_⟩
  intro S s hr
  have hall : tracking_inv s ∧ s.d_track_after_n_frames = k ∧ s.d_track_every_n_frames = p := by
    induction hr with
    | start => exact ⟨hinit, rfl, rfl⟩
    | work s w _ ih => exact hstep S s w ih.2.1 ih.2.2 ih.1
  exact hall.1

theorem tracking_inv_always_witness :
    (1 : Int) ≤ 3 ∧ (0 : Int) ≤ 4 ∧ tracking_inv (pss_impl.make small_consts 0 (1 / 2) 3 4) :=
  ⟨by decide, by decide,
    (tracking_inv_always small_consts 0 (1 / 2) 3 4 (by decide) (by decide)).1⟩

/-! ### C15: when the search runs -/

theorem search_ran_iff {S : Type} (c : pss_consts) (s : pss_impl) (w : work_input S) :
    search_ran c s w ↔ (s.d_tracking.is_tracking = false ∨ s.d_tracking.timer = 0) := by
  unfold search_ran search_phase
  split_ifs with h
  · simp [h]
  · simp [h]

/-- What lines 163-172 do when the search runs and when it is skipped. -/
theorem search_phase_cases {S : Type} (c : pss_consts) (s : pss_impl) (w : work_input S) :
    (s.d_tracking.is_tracking = false ∨ s.d_tracking.timer = 0 →
      (search_phase c s w).d_tracking.timer = s.d_track_every_n_frames ∧
      (search_phase c s w).d_psr = w.find_pss_psr ∧
      (search_phase c s w).d_peak_pos = w.find_pss_peak_pos) ∧
    (¬ (s.d_tracking.is_tracking = false ∨ s.d_tracking.timer = 0) →
      (search_phase c s w).d_tracking.timer = s.d_tracking.timer - 1 ∧
      (search_phase c s w).d_psr = s.d_psr ∧
      (search_phase c s w).d_peak_pos = s.d_peak_pos ∧
      (search_phase c s w).d_psr_data = s.d_psr_data ∧
      (search_phase c s w).d_psr_i = s.d_psr_i) := by
  unfold search_phase
  constructor
  · intro h
    rw [if_pos h]
    exact ⟨rfl, rfl, rfl⟩
  · intro h
    rw [if_neg h]
    exact ⟨rfl, rfl, rfl, rfl, rfl⟩

/-- A tracker that is Locked on `score == maxScore` and whose metric at line
174 is over the threshold leaves the invocation with the tracking state of
line 172: `incr_score` returns at once. -/
theorem locked_over_tracking {S : Type} (c : pss_consts) (s : pss_impl) (w : work_input S)
    (hl : s.d_tracking.is_tracking = true)
    (hs : s.d_tracking.score = s.d_track_after_n_frames)
    (hov : (search_phase c s w).d_psr > s.d_psr_threshold) :
    psr_over_threshold (search_phase c s w) = true ∧
    score_phase c (search_phase c s w) =
      (if (search_phase c s w).d_psr > (search_phase c s w).d_psr_max
        then { search_phase c s w with d_psr_max := (search_phase c s w).d_psr }
        else search_phase c s w) ∧
    (general_work c s w).state.d_tracking = (search_phase c s w).d_tracking := by
  have hk := search_phase_keeps c s w
  have hover : psr_over_threshold (search_phase c s w) = true := by
    unfold psr_over_threshold
    rw [hk.2.2.2.1]
    exact decide_eq_true hov
  have hincr : incr_score (search_phase c s w) = search_phase c s w :=
    incr_score_locked _ (by rw [hk.2.1]; exact hl) (by rw [hk.1, hk.2.2.2.2]; exact hs)
  have hsp : score_phase c (search_phase c s w) =
      (if (search_phase c s w).d_psr > (search_phase c s w).d_psr_max
        then { search_phase c s w with d_psr_max := (search_phase c s w).d_psr }
        else search_phase c s w) := by
    unfold score_phase
    simp only [hover, if_true, hincr]
  refine ⟨hover, hsp, ?_⟩
  rw [(work_state_eq c s w).1, (score_phase_keeps c _).1, if_pos hover, hincr]

/-- An Unlocked tracker that an invocation leaves Locked is left with
`timer = 0`. -/
theorem acquisition_timer {S : Type} (c : pss_consts) (s : pss_impl) (w : work_input S)
    (hu : s.d_tracking.is_tracking = false)
    (hl : (general_work c s w).state.d_tracking.is_tracking = true) :
    (general_work c s w).state.d_tracking.timer = 0 := by
  have hk := search_phase_keeps c s w
  have hu1 : (search_phase c s w).d_tracking.is_tracking = false := by rw [hk.2.1]; exact hu
  rw [(work_state_eq c s w).1, (score_phase_keeps c _).1] at hl ⊢
  by_cases hover : psr_over_threshold (search_phase c s w) = true
  · rw [if_pos hover] at hl ⊢
    by_cases hr : (search_phase c s w).d_tracking.score + 1 =
        (search_phase c s w).d_track_after_n_frames
    · unfold incr_score
      simp [hu1, hr, tracking_t.start]
    · rw [(incr_score_below _ hu1 hr).2] at hl
      exact Bool.noConfusion hl
  · rw [if_neg hover] at hl
    by_cases h0 : (search_phase c s w).d_tracking.score = 0
    · rw [reset_score_zero c _ h0, hu1] at hl
      exact Bool.noConfusion hl
    · rw [(reset_score_scalars c _ h0).1] at hl
      exact Bool.noConfusion hl

/-- One invocation that skips the search while the lock is held on
`score == maxScore` with the metric over the threshold: it takes 1 off the
timer and leaves the lock, the score, the metric and the configuration. -/
theorem skip_step {S : Type} (c : pss_consts) (s : pss_impl) (w : work_input S)
    (hl : s.d_tracking.is_tracking = true)
    (hs : s.d_tracking.score = s.d_track_after_n_frames) (hov : s.d_psr > s.d_psr_threshold)
    (ht : s.d_tracking.timer ≠ 0) :
    (general_work c s w).state.d_tracking.is_tracking = true ∧
    (general_work c s w).state.d_tracking.score = s.d_tracking.score ∧
    (general_work c s w).state.d_tracking.timer = s.d_tracking.timer - 1 ∧
    (general_work c s w).state.d_psr = s.d_psr := by
  have hskip : ¬ (s.d_tracking.is_tracking = false ∨ s.d_tracking.timer = 0) := by
    rintro (h | h)
    · rw [hl] at h
      exact Bool.noConfusion h
    · exact ht h
  have hc := (search_phase_cases c s w).2 hskip
  have hk := search_phase_keeps c s w
  have hw := work_state_eq c s w
  have htr := (locked_over_tracking c s w hl hs (by rw [hc.2.1]; exact hov)).2.2
  exact ⟨by rw [htr, hk.2.1]; exact hl, by rw [htr, hk.1], by rw [htr, hc.1],
    by rw [hw.2.1, hc.2.1]⟩

/-- While the lock is held with a timer of at least `ws.length`, the
invocations on `ws` all skip the search: each takes 1 off the timer and
leaves the lock, the score, the metric and the configuration as they are. -/
theorem skip_run {S : Type} (c : pss_consts) (ws : List (work_input S)) :
    ∀ s : pss_impl, s.d_tracking.is_tracking = true →
      s.d_tracking.score = s.d_track_after_n_frames → s.d_psr > s.d_psr_threshold →
      (ws.length : Int) ≤ s.d_tracking.timer →
      (state_after c s ws).d_tracking.is_tracking = true ∧
      (state_after c s ws).d_tracking.score = s.d_tracking.score ∧
      (state_after c s ws).d_tracking.timer = s.d_tracking.timer - (ws.length : Int) ∧
      (state_after c s ws).d_psr = s.d_psr ∧
      (state_after c s ws).d_psr_threshold = s.d_psr_threshold ∧
      (state_after c s ws).d_track_after_n_frames = s.d_track_after_n_frames ∧
      (state_after c s ws).d_track_every_n_frames = s.d_track_every_n_frames := by
  induction ws with
  | nil =>
    intro s hl _ _ _
    simp [state_after, hl]
  | cons w ws ih =>
    intro s hl hs hov hle
    rw [List.length_cons] at hle
    push_cast at hle
    have hst := skip_step c s w hl hs hov (by omega)
    have hw := work_state_eq c s w
    have hnext := ih (general_work c s w).state hst.1
      (by rw [hst.2.1, hw.2.2.2.1]; exact hs)
      (by rw [hst.2.2.2, hw.2.2.1]; exact hov)
      (by rw [hst.2.2.1]; omega)
    have hsa : state_after c s (w :: ws) = state_after c (general_work c s w).state ws := rfl
    rw [hsa, List.length_cons]
    push_cast
    refine ⟨hnext.1, ?_, ?_, ?_, ?_, ?_, ?_⟩
    · rw [hnext.2.1, hst.2.1]
    · rw [hnext.2.2.1, hst.2.2.1]
      ring
    · rw [hnext.2.2.2.1, hst.2.2.2]
    · rw [hnext.2.2.2.2.1, hw.2.2.1]
    · rw [hnext.2.2.2.2.2.1, hw.2.2.2.1]
    · rw [hnext.2.2.2.2.2.2, hw.2.2.2.2]

/-- C15: the search runs in an invocation exactly when the tracker is Unlocked
or `timer == 0` at entry. An invocation that takes the tracker from Unlocked
to Locked leaves `timer = 0`, so the search runs in the next one. And from a
Locked instance with `timer = 0` and a period `p >= 0`: the search runs, and
if its metric is over the threshold, the lock is held through any `j <= p`
further invocations, which leave `timer = p - j`; the search runs in the
invocation after them exactly when `j = p`, so the `p` invocations that follow
a search skip it and the one after them runs it. -/
theorem search_schedule {S : Type} (c : pss_consts) :
    (∀ (s : pss_impl) (w : work_input S),
      search_ran c s w ↔ (s.d_tracking.is_tracking = false ∨ s.d_tracking.timer = 0)) ∧
    (∀ (s : pss_impl) (w : work_input S), s.d_tracking.is_tracking = false →
      (general_work c s w).state.d_tracking.is_tracking = true →
      (general_work c s w).state.d_tracking.timer = 0 ∧
      ∀ v : work_input S, search_ran c (general_work c s w).state v) ∧
    (∀ (p : Nat) (s : pss_impl) (w : work_input S) (ws : List (work_input S)),
      s.d_track_every_n_frames = (p : Int) → s.d_tracking.is_tracking = true →
      s.d_tracking.score = s.d_track_after_n_frames → s.d_tracking.timer = 0 →
      w.find_pss_psr > s.d_psr_threshold → ws.length ≤ p →
      search_ran c s w ∧
      (general_work c s w).state.d_tracking.timer = (p : Int) ∧
      (state_after c (general_work c s w).state ws).d_tracking.is_tracking = true ∧
      (state_after c (general_work c s w).state ws).d_tracking.timer =
        (p : Int) - (ws.length : Int) ∧
      ∀ v : work_input S,
        search_ran c (state_after c (general_work c s w).state ws) v ↔ ws.length = p) := by
  refine ⟨search_ran_iff c, ?_, ?_⟩
  · intro s w hu hl
    have ht := acquisition_timer c s w hu hl
    exact ⟨ht, fun v => (search_ran_iff c _ v).mpr (Or.inr ht)⟩
  · intro p s w ws hp hl hs ht hov hlen
    have hrun : s.d_tracking.is_tracking = false ∨ s.d_tracking.timer = 0 := Or.inr ht
    have hc := (search_phase_cases c s w).1 hrun
    have hk := search_phase_keeps c s w
    have hw := work_state_eq c s w
    have htr := (locked_over_tracking c s w hl hs (by rw [hc.2.1]; exact hov)).2.2
    have ht0 : (general_work c s w).state.d_tracking.timer = (p : Int) := by
      rw [htr, hc.1, hp]
    have hsk := skip_run c ws (general_work c s w).state
      (by rw [htr, hk.2.1]; exact hl)
      (by rw [htr, hk.1, hw.2.2.2.1]; exact hs)
      (by rw [hw.2.1, hc.2.1, hw.2.2.1]; exact hov)
      (by rw [ht0]; exact_mod_cast hlen)
    refine ⟨(search_ran_iff c s w).mpr hrun, ht0, hsk.1, by rw [hsk.2.2.1, ht0], ?_⟩
    intro v
    rw [search_ran_iff, hsk.1, hsk.2.2.1, ht0]
    constructor
    · rintro (h | h)
      · exact Bool.noConfusion h
      · omega
    · intro e
      right
      omega

theorem search_schedule_witness :
    locked_full.d_track_every_n_frames = ((4 : Nat) : Int) ∧
    locked_full.d_tracking.is_tracking = true ∧
    locked_full.d_tracking.score = locked_full.d_track_after_n_frames ∧
    locked_full.d_tracking.timer = 0 ∧
    (window 20 4 (9 / 10)).find_pss_psr > locked_full.d_psr_threshold ∧
    [window 20 4 0, window 20 4 0].length ≤ 4 ∧
    (state_after small_consts (general_work small_consts locked_full (window 20 4 (9 / 10))).state
      [window 20 4 0, window 20 4 0]).d_tracking.timer =
        ((4 : Nat) : Int) - (([window 20 4 0, window 20 4 0].length : Nat) : Int) :=
  have hov : (window 20 4 (9 / 10)).find_pss_psr > locked_full.d_psr_threshold := by
    norm_num [window, locked_full, fresh, pss_impl.make]
  ⟨rfl, rfl, rfl, rfl, hov, by decide,
    ((search_schedule small_consts).2.2 4 locked_full (window 20 4 (9 / 10))
      [window 20 4 0, window 20 4 0] rfl rfl rfl rfl hov (by decide)).2.2.2.1⟩

/-! ### C16: a reading equal to the threshold -/

theorem reset_score_score (c : pss_consts) (s : pss_impl) :
    (reset_score c s).d_tracking.score = 0 := by
  by_cases h0 : s.d_tracking.score = 0
  · rw [reset_score_zero c s h0]
    exact h0
  · rw [(reset_score_scalars c s h0).1]

/-- C16: an invocation whose metric at line 174 is equal to the threshold does
not count as over the threshold: the tracking state it leaves is the one
`reset_score` gives (not `incr_score`), and the score is 0. -/
theorem at_threshold_resets {S : Type} (c : pss_consts) (s : pss_impl) (w : work_input S)
    (heq : (search_phase c s w).d_psr = s.d_psr_threshold) :
    psr_over_threshold (search_phase c s w) = false ∧
    (general_work c s w).state.d_tracking = (reset_score c (search_phase c s w)).d_tracking ∧
    (general_work c s w).state.d_tracking.score = 0 := by
  have hno : psr_over_threshold (search_phase c s w) = false := by
    unfold psr_over_threshold
    rw [(search_phase_keeps c s w).2.2.2.1, heq]
    exact decide_eq_false (lt_irrefl _)
  have htr : (general_work c s w).state.d_tracking =
      (reset_score c (search_phase c s w)).d_tracking := by
    rw [(work_state_eq c s w).1, (score_phase_keeps c _).1, hno]
    simp
  exact ⟨hno, htr, by rw [htr]; exact reset_score_score c _⟩

theorem at_threshold_resets_witness :
    (search_phase small_consts locked_full (window 20 4 (1 / 2))).d_psr =
      locked_full.d_psr_threshold ∧
    (general_work small_consts locked_full (window 20 4 (1 / 2))).state.d_tracking.score = 0 :=
  have heq : (search_phase small_consts locked_full (window 20 4 (1 / 2))).d_psr =
      locked_full.d_psr_threshold := by
    norm_num [search_phase, locked_full, fresh, window, pss_impl.make]
  ⟨heq, (at_threshold_resets small_consts locked_full (window 20 4 (1 / 2)) heq).2.2⟩

/-! ### Reachable Locked instances -/

theorem output_phase_peak {S : Type} (c : pss_consts) (s : pss_impl) (over : Bool)
    (w : work_input S) (h : over = true ∨ s.d_tracking_lost = true) :
    (output_phase c s over w).state.d_peak_pos = (c.slot_length : Int) := by
  unfold output_phase
  simp only [if_pos h]
  split_ifs <;> rfl

/-- The pending flag is cleared in the branch of lines 210-214 only: a tracker
that is Locked at line 197 keeps it. -/
theorem output_phase_lost_locked {S : Type} (c : pss_consts) (s : pss_impl) (over : Bool)
    (w : work_input S) (hl : s.d_tracking.is_tracking = true) :
    (output_phase c s over w).state.d_tracking_lost = s.d_tracking_lost := by
  unfold output_phase
  simp only [hl, if_true]
  split_ifs <;> rfl

/-- The facts kept along the invocations: the score is not negative, and a
Locked tracker has `score == maxScore >= 1`, its stored metric over the
threshold and its stored peak position at `slot_length`. -/
theorem locked_facts_step {S : Type} (c : pss_consts) (s : pss_impl) (w : work_input S)
    (h0 : 0 ≤ s.d_tracking.score)
    (hL : s.d_tracking.is_tracking = true →
      s.d_tracking.score = s.d_track_after_n_frames ∧ 1 ≤ s.d_tracking.score ∧
      s.d_psr > s.d_psr_threshold ∧ s.d_peak_pos = (c.slot_length : Int)) :
    0 ≤ (general_work c s w).state.d_tracking.score ∧
    ((general_work c s w).state.d_tracking.is_tracking = true →
      (general_work c s w).state.d_tracking.score =
        (general_work c s w).state.d_track_after_n_frames ∧
      1 ≤ (general_work c s w).state.d_tracking.score ∧
      (general_work c s w).state.d_psr > (general_work c s w).state.d_psr_threshold ∧
      (general_work c s w).state.d_peak_pos = (c.slot_length : Int)) := by
  have hk := search_phase_keeps c s w
  have hw := work_state_eq c s w
  have hsp := score_phase_keeps c (search_phase c s w)
  rw [hw.1, hw.2.1, hw.2.2.1, hw.2.2.2.1, hsp.1]
  by_cases hover : psr_over_threshold (search_phase c s w) = true
  · have hgt : (search_phase c s w).d_psr > s.d_psr_threshold := by
      unfold psr_over_threshold at hover
      rw [hk.2.2.2.1] at hover
      exact of_decide_eq_true hover
    have hpk : (general_work c s w).state.d_peak_pos = (c.slot_length : Int) := by
      unfold general_work
      simp only
      exact output_phase_peak c _ _ w (Or.inl hover)
    rw [if_pos hover]
    cases hl : s.d_tracking.is_tracking
    · have hu1 : (search_phase c s w).d_tracking.is_tracking = false := by rw [hk.2.1]; exact hl
      by_cases hr : (search_phase c s w).d_tracking.score + 1 =
          (search_phase c s w).d_track_after_n_frames
      · have h5 := incr_score_reach _ hu1 hr
        rw [h5.1, hk.2.2.2.2]
        rw [hk.1, hk.2.2.2.2] at hr
        exact ⟨by omega, fun _ => ⟨rfl, by omega, hgt, hpk⟩⟩
      · have h5 := incr_score_below _ hu1 hr
        rw [h5.1, h5.2, hk.1]
        exact ⟨by omega, fun e => Bool.noConfusion e⟩
    · obtain ⟨a, b, _, _⟩ := hL hl
      rw [incr_score_locked _ (by rw [hk.2.1]; exact hl) (by rw [hk.1, hk.2.2.2.2]; exact a),
        hk.1]
      exact ⟨h0, fun _ => ⟨a, b, hgt, hpk⟩⟩
  · rw [if_neg hover, reset_score_score]
    refine ⟨le_refl _, fun e => ?_⟩
    exfalso
    have hun := reset_score_unlocked c (search_phase c s w) (by
      rw [hk.1, hk.2.1]
      intro hl
      have := (hL hl).2.1
      omega)
    rw [hun] at e
    exact Bool.noConfusion e

/-- Every instance reachable from the initial one keeps the configuration,
has a score that is not negative, and, when Locked, has `score == maxScore`,
its stored metric over the threshold and its stored peak position at
`slot_length`. -/
theorem reachable_locked_facts (S : Type) (c : pss_consts) (N_id_2 : Int) (thr : ℚ)
    (k p : Int) (s : pss_impl) (hr : reachable S c (pss_impl.make c N_id_2 thr k p) s) :
    s.d_psr_threshold = thr ∧ s.d_track_after_n_frames = k ∧ 0 ≤ s.d_tracking.score ∧
    (s.d_tracking.is_tracking = true →
      s.d_tracking.score = s.d_track_after_n_frames ∧ 1 ≤ s.d_tracking.score ∧
      s.d_psr > s.d_psr_threshold ∧ s.d_peak_pos = (c.slot_length : Int)) := by
  induction hr with
  | start => exact ⟨rfl, rfl, le_refl _, fun e => Bool.noConfusion e⟩
  | work s w _ ih =>
    have hw := work_state_eq c s w
    have hstep := locked_facts_step c s w ih.2.2.1 ih.2.2.2
    exact ⟨by rw [hw.2.2.1]; exact ih.1, by rw [hw.2.2.2.1]; exact ih.2.1, hstep.1, hstep.2⟩

/-- An invocation that skips the search on a tracker Locked on
`score == maxScore`, with the stored metric over the threshold and the stored
peak position at `slot_length`. -/
theorem skip_invocation {S : Type} (c : pss_consts) (s : pss_impl) (w : work_input S)
    (hl : s.d_tracking.is_tracking = true)
    (hs : s.d_tracking.score = s.d_track_after_n_frames) (hov : s.d_psr > s.d_psr_threshold)
    (hpk : s.d_peak_pos = (c.slot_length : Int)) (ht : s.d_tracking.timer ≠ 0) :
    ¬ search_ran c s w ∧
    frame_start c s w = s.d_peak_pos - (c.slot_length : Int) ∧
    frame_start c s w = 0 ∧
    aligned_path c s w ∧
    loss_transition c s w = false ∧
    (general_work c s w).state.d_tracking_lost = s.d_tracking_lost ∧
    (general_work c s w).tag_added = false := by
  have hskip : ¬ (s.d_tracking.is_tracking = false ∨ s.d_tracking.timer = 0) := by
    rintro (h | h)
    · rw [hl] at h
      exact Bool.noConfusion h
    · exact ht h
  have hc := (search_phase_cases c s w).2 hskip
  have hk := search_phase_keeps c s w
  have hlo := locked_over_tracking c s w hl hs (by rw [hc.2.1]; exact hov)
  have hfs : frame_start c s w = s.d_peak_pos - (c.slot_length : Int) := by
    rw [frame_start_eq, if_neg hskip]
  have hal : aligned_path c s w := Or.inl hlo.1
  have hsl : (score_phase c (search_phase c s w)).d_tracking.is_tracking = true := by
    rw [(score_phase_keeps c _).1, if_pos hlo.1,
      incr_score_locked _ (by rw [hk.2.1]; exact hl) (by rw [hk.1, hk.2.2.2.2]; exact hs),
      hk.2.1]
    exact hl
  refine ⟨fun h => hskip ((search_ran_iff c s w).mp h), hfs, by rw [hfs, hpk]; ring, hal,
    ?_, ?_, ?_⟩
  · unfold loss_transition
    rw [hlo.1]
    rfl
  · unfold general_work
    simp only
    rw [output_phase_lost_locked c _ _ w hsl, (score_phase_keeps c _).2.1, if_pos hlo.1,
      (incr_score_keeps _).2, hk.2.2.1]
  · cases htag : (general_work c s w).tag_added
    · rfl
    · have := ((tag_added_iff c s w).mp htag).2.2
      rw [hsl] at this
      exact Bool.noConfusion this

/-! ### C17: the peak position of an invocation that skips the search -/

/-- C17 (counterexample): on `locked_full` (timer 0) the search runs and
returns the peak position 5, one more than `slot_length = 4`, so that
invocation aligns on `frame_start = 1` and returns a frame. The instance it
leaves is Locked with timer 4, so the next invocation skips the search; it
computes `frame_start = 0`, from the stored position 4 that line 186 put
there, not from the position 5 that the most recent search returned. -/
theorem skip_ignores_search_position :
    search_ran small_consts locked_full (window 20 5 (9 / 10)) ∧
    (window 20 5 (9 / 10)).find_pss_peak_pos = 5 ∧
    frame_start small_consts locked_full (window 20 5 (9 / 10)) = 1 ∧
    (general_work small_consts locked_full (window 20 5 (9 / 10))).ending =
      outcome.returned 8 ∧
    after_search.d_tracking.is_tracking = true ∧ 0 < after_search.d_tracking.timer ∧
    ¬ search_ran small_consts after_search (window 20 7 0) ∧
    after_search.d_peak_pos = 4 ∧
    frame_start small_consts after_search (window 20 7 0) = 0 ∧
    frame_start small_consts after_search (window 20 7 0) ≠
      (window 20 5 (9 / 10)).find_pss_peak_pos - (small_consts.slot_length : Int) := by
  norm_num [after_search, search_ran, frame_start, general_work, output_phase, score_phase,
    search_phase, psr_over_threshold, incr_score, reset_score, locked_full, fresh, window,
    small_consts, pss_impl.make, tracking_t.stop, copy_range]

/-- C17 (amended): in an invocation that skips the search (Locked and
`timer > 0` at entry) on an instance reachable from the initial one, the peak
position behind `frame_start` is the stored `d_peak_pos`, no search result
being read; the stored position is `slot_length`, where line 186 put it, so
`frame_start = 0`. -/
theorem skip_uses_stored_position (S : Type) (c : pss_consts) (N_id_2 : Int) (thr : ℚ)
    (k p : Int) (s : pss_impl) (w : work_input S)
    (hr : reachable S c (pss_impl.make c N_id_2 thr k p) s)
    (hl : s.d_tracking.is_tracking = true) (ht : 0 < s.d_tracking.timer) :
    ¬ search_ran c s w ∧
    frame_start c s w = s.d_peak_pos - (c.slot_length : Int) ∧
    s.d_peak_pos = (c.slot_length : Int) ∧
    frame_start c s w = 0 := by
  obtain ⟨_, _, _, hL⟩ := reachable_locked_facts S c N_id_2 thr k p s hr
  obtain ⟨a, _, b, d⟩ := hL hl
  have h := skip_invocation c s w hl a b d (by omega)
  exact ⟨h.1, h.2.1, d, h.2.2.1⟩

theorem skip_uses_stored_position_witness :
    reachable Int small_consts (pss_impl.make small_consts 0 (1 / 2) 1 4)
      (general_work small_consts (pss_impl.make small_consts 0 (1 / 2) 1 4)
        (window 20 5 (9 / 10))).state ∧
    (state_after small_consts (pss_impl.make small_consts 0 (1 / 2) 1 4)
      [window 20 5 (9 / 10), window 20 6 (9 / 10)]).d_tracking.is_tracking = true ∧
    0 < (state_after small_consts (pss_impl.make small_consts 0 (1 / 2) 1 4)
      [window 20 5 (9 / 10), window 20 6 (9 / 10)]).d_tracking.timer ∧
    frame_start small_consts (state_after small_consts (pss_impl.make small_consts 0 (1 / 2) 1 4)
      [window 20 5 (9 / 10), window 20 6 (9 / 10)]) (window 20 7 0) = 0 :=
  have hr1 : reachable Int small_consts (pss_impl.make small_consts 0 (1 / 2) 1 4)
      (general_work small_consts (pss_impl.make small_consts 0 (1 / 2) 1 4)
        (window 20 5 (9 / 10))).state :=
    reachable.work _ _ reachable.start
  have hr2 : reachable Int small_consts (pss_impl.make small_consts 0 (1 / 2) 1 4)
      (state_after small_consts (pss_impl.make small_consts 0 (1 / 2) 1 4)
        [window 20 5 (9 / 10), window 20 6 (9 / 10)]) :=
    reachable.work _ (window 20 6 (9 / 10)) hr1
  have hl : (state_after small_consts (pss_impl.make small_consts 0 (1 / 2) 1 4)
      [window 20 5 (9 / 10), window 20 6 (9 / 10)]).d_tracking.is_tracking = true := by
    norm_num [state_after, general_work, output_phase, score_phase, search_phase,
      psr_over_threshold, incr_score, reset_score, window, small_consts, pss_impl.make,
      tracking_t.start, tracking_t.stop, copy_range]
  have ht : 0 < (state_after small_consts (pss_impl.make small_consts 0 (1 / 2) 1 4)
      [window 20 5 (9 / 10), window 20 6 (9 / 10)]).d_tracking.timer := by
    norm_num [state_after, general_work, output_phase, score_phase, search_phase,
      psr_over_threshold, incr_score, reset_score, window, small_consts, pss_impl.make,
      tracking_t.start, tracking_t.stop, copy_range]
  ⟨hr1, hl, ht,
    (skip_uses_stored_position Int small_consts 0 (1 / 2) 1 4 _ (window 20 7 0) hr2 hl ht).2.2.2⟩

/-! ### C18: the stored metric of a Locked tracker -/

/-- C18: in every instance reachable from the initial one in which the tracker
is Locked, the stored metric `d_psr` is over the threshold. So an invocation
that skips the search (Locked and `timer > 0` at entry) leaves the score and
the lock as they are, is no loss transition and leaves the pending flag as it
is; and when its bounds check passes (`half_frame_length < ninput_items[0]`,
as `frame_start = 0`) it copies the frame `in[0 .. half_frame_length)`,
consumes `half_frame_length` items, adds no tag and returns
`half_frame_length`, the one other ending being the exception of line 209,
which is not thrown when the channel estimation reports no failure. -/
theorem locked_metric_over (S : Type) (c : pss_consts) (N_id_2 : Int) (thr : ℚ)
    (k p : Int) (s : pss_impl) (hr : reachable S c (pss_impl.make c N_id_2 thr k p) s)
    (hl : s.d_tracking.is_tracking = true) :
    s.d_psr > s.d_psr_threshold ∧
    ∀ w : work_input S, 0 < s.d_tracking.timer →
      ¬ search_ran c s w ∧
      (general_work c s w).state.d_tracking.score = s.d_tracking.score ∧
      (general_work c s w).state.d_tracking.is_tracking = true ∧
      loss_transition c s w = false ∧
      (general_work c s w).state.d_tracking_lost = s.d_tracking_lost ∧
      frame_start c s w = 0 ∧
      ((c.half_frame_length : Int) < w.ninput_items →
        (general_work c s w).copied = copy_range w.inp 0 c.half_frame_length ∧
        (general_work c s w).consumed = some (c.half_frame_length : Int) ∧
        (general_work c s w).tag_added = false ∧
        ((general_work c s w).ending = outcome.returned (c.half_frame_length : Int) ∨
          (general_work c s w).ending = outcome.runtime_error) ∧
        ((∀ l, w.chest l = 0) →
          (general_work c s w).ending = outcome.returned (c.half_frame_length : Int))) := by
  obtain ⟨_, _, _, hL⟩ := reachable_locked_facts S c N_id_2 thr k p s hr
  obtain ⟨a, _, b, d⟩ := hL hl
  refine ⟨b, ?_⟩
  intro w ht
  have hne : s.d_tracking.timer ≠ 0 := by omega
  have h := skip_invocation c s w hl a b d hne
  have hst := skip_step c s w hl a b hne
  refine ⟨h.1, hst.2.1, hst.1, h.2.2.2.2.1, h.2.2.2.2.2.1, h.2.2.1, ?_⟩
  intro hb
  have he := aligned_effects c s w h.2.2.2.1 (by rw [h.2.2.1]; omega)
  rw [h.2.2.1, zero_add] at he
  exact ⟨he.1, he.2.1, h.2.2.2.2.2.2, he.2.2.1, he.2.2.2⟩

theorem locked_metric_over_witness :
    reachable Int small_consts (pss_impl.make small_consts 0 (1 / 2) 1 4)
      (general_work small_consts (pss_impl.make small_consts 0 (1 / 2) 1 4)
        (window 20 5 (9 / 10))).state ∧
    (general_work small_consts (pss_impl.make small_consts 0 (1 / 2) 1 4)
      (window 20 5 (9 / 10))).state.d_tracking.is_tracking = true ∧
    (general_work small_consts (pss_impl.make small_consts 0 (1 / 2) 1 4)
      (window 20 5 (9 / 10))).state.d_psr >
    (general_work small_consts (pss_impl.make small_consts 0 (1 / 2) 1 4)
      (window 20 5 (9 / 10))).state.d_psr_threshold :=
  have hr1 : reachable Int small_consts (pss_impl.make small_consts 0 (1 / 2) 1 4)
      (general_work small_consts (pss_impl.make small_consts 0 (1 / 2) 1 4)
        (window 20 5 (9 / 10))).state :=
    reachable.work _ _ reachable.start
  have hl : (general_work small_consts (pss_impl.make small_consts 0 (1 / 2) 1 4)
      (window 20 5 (9 / 10))).state.d_tracking.is_tracking = true := by
    norm_num [general_work, output_phase, score_phase, search_phase,
      psr_over_threshold, incr_score, reset_score, window, small_consts, pss_impl.make,
      tracking_t.start, tracking_t.stop, copy_range]
  ⟨hr1, hl, (locked_metric_over Int small_consts 0 (1 / 2) 1 4 _ hr1 hl).1⟩

/-! ### C19: the pending flag at the end of an invocation -/

/-- An invocation that returns on the aligned path passed the `assert`. -/
theorem returned_in_bounds {S : Type} (c : pss_consts) (s : pss_impl) (w : work_input S)
    (n : Int) (hret : (general_work c s w).ending = outcome.returned n)
    (hal : aligned_path c s w) :
    frame_start c s w + (c.half_frame_length : Int) < w.ninput_items := by
  by_contra hb
  rw [(assert_failed_iff c s w hal).mpr (not_lt.mp hb)] at hret
  exact outcome.noConfusion hret

/-- C19: from an instance whose pending flag `d_tracking_lost` is false, an
invocation of `general_work` that returns leaves the flag false; if it was a
loss transition (`reset_score` set the flag), the `tracking_lost` tag was
added in it. The invocation does return off the aligned path, and on it when
the bounds check passes and the channel estimation reports no failure. -/
theorem lost_flag_cleared {S : Type} (c : pss_consts) (s : pss_impl) (w : work_input S)
    (hf : s.d_tracking_lost = false) :
    (∀ n : Int, (general_work c s w).ending = outcome.returned n →
      (general_work c s w).state.d_tracking_lost = false ∧
      (loss_transition c s w = true → (general_work c s w).tag_added = true)) ∧
    (¬ aligned_path c s w → (general_work c s w).ending = outcome.returned 0) ∧
    (aligned_path c s w →
      frame_start c s w + (c.half_frame_length : Int) < w.ninput_items →
      (∀ l, w.chest l = 0) →
      (general_work c s w).ending = outcome.returned (c.half_frame_length : Int)) := by
  have hk := search_phase_keeps c s w
  have hsp := score_phase_keeps c (search_phase c s w)
  refine ⟨?_, ?_, fun hal hb hc => (aligned_effects c s w hal hb).2.2.2 hc⟩
  · intro n hret
    constructor
    · by_cases hal : aligned_path c s w
      · have hb := returned_in_bounds c s w n hret hal
        unfold general_work
        unfold aligned_path at hal
        unfold frame_start at hb
        simp only
        cases hu : (score_phase c (search_phase c s w)).d_tracking.is_tracking
        · rw [output_phase_unlocked c _ _ w hal hb hu]
        · rw [output_phase_lost_locked c _ _ w hu, hsp.2.1]
          rw [hsp.1] at hu
          by_cases hover : psr_over_threshold (search_phase c s w) = true
          · rw [if_pos hover, (incr_score_keeps _).2, hk.2.2.1]
            exact hf
          · rw [if_neg hover] at hu ⊢
            by_cases h0 : (search_phase c s w).d_tracking.score = 0
            · rw [reset_score_zero c _ h0, hk.2.2.1]
              exact hf
            · rw [(reset_score_scalars c _ h0).1] at hu
              exact Bool.noConfusion hu
      · unfold general_work
        unfold aligned_path at hal
        simp only
        rw [output_phase_drop c _ _ w hal]
        show (score_phase c (search_phase c s w)).d_tracking_lost = false
        cases hlost : (score_phase c (search_phase c s w)).d_tracking_lost
        · rfl
        · exact absurd (Or.inr hlost) hal
    · intro hloss
      unfold loss_transition at hloss
      simp only [Bool.and_eq_true, Bool.not_eq_true', decide_eq_true_eq] at hloss
      obtain ⟨hno, h0⟩ := hloss
      have hscal := reset_score_scalars c (search_phase c s w) h0
      have hlost : (score_phase c (search_phase c s w)).d_tracking_lost = true := by
        rw [hsp.2.1, hno]
        simp only [Bool.false_eq_true, if_false]
        exact hscal.2.2.2.2.1
      have hunl : (score_phase c (search_phase c s w)).d_tracking.is_tracking = false := by
        rw [hsp.1, hno]
        simp only [Bool.false_eq_true, if_false]
        rw [hscal.1]
      have hal : aligned_path c s w := Or.inr hlost
      exact (tag_added_iff c s w).mpr ⟨hal, returned_in_bounds c s w n hret hal, hunl⟩
  · intro hal
    unfold general_work
    unfold aligned_path at hal
    simp only
    rw [output_phase_drop c _ _ w hal]

theorem lost_flag_cleared_witness :
    locked_full.d_tracking_lost = false ∧
    (general_work small_consts locked_full (window 20 5 (1 / 5))).ending =
      outcome.returned 8 ∧
    loss_transition small_consts locked_full (window 20 5 (1 / 5)) = true ∧
    (general_work small_consts locked_full (window 20 5 (1 / 5))).state.d_tracking_lost =
      false ∧
    (general_work small_consts locked_full (window 20 5 (1 / 5))).tag_added = true :=
  have hret : (general_work small_consts locked_full (window 20 5 (1 / 5))).ending =
      outcome.returned 8 := by
    norm_num [general_work, output_phase, score_phase, search_phase, psr_over_threshold,
      incr_score, reset_score, locked_full, fresh, window, small_consts, pss_impl.make,
      tracking_t.stop]
  have hloss : loss_transition small_consts locked_full (window 20 5 (1 / 5)) = true := by
    norm_num [loss_transition, search_phase, psr_over_threshold, locked_full, fresh, window,
      small_consts, pss_impl.make]
  have h := (lost_flag_cleared small_consts locked_full (window 20 5 (1 / 5)) rfl).1 8 hret
  ⟨rfl, hret, hloss, h.1, h.2 hloss⟩

/-! ### C20: the mean after `reset_score` -/

theorem memset_zero_length (c : pss_consts) (data : List ℚ) (n : Nat) :
    (memset_zero c data n).length = data.length := by
  unfold memset_zero
  simp

/-- The rings and write counters that `reset_score` leaves on a non-zero
score. -/
theorem reset_score_rings (c : pss_consts) (s : pss_impl) (h : s.d_tracking.score ≠ 0) :
    ((reset_score c s).d_psr_data, (reset_score c s).d_psr_i) =
      (memset_zero c s.d_psr_data c.moving_avg_sz, 0) ∧
    ((reset_score c s).d_cfo_data, (reset_score c s).d_cfo_i) =
      (memset_zero c s.d_cfo_data c.moving_avg_sz, 0) := by
  unfold reset_score
  simp [h]

/-- C20: take two instances, whatever their rings of `moving_avg_sz > 0`
entries hold, on which `reset_score` acts (non-zero score). After
`reset_score` and the same writes `vs` through the write counter,
`compute_moving_avg` with `npts` the counter returns the same value on both,
for the quality ring and for the offset ring: it is the sum of the last
`min n moving_avg_sz` of the `n` values written over their number, whatever
the `memset` calls left in the rings. -/
theorem mean_after_reset (c : pss_consts) (s1 s2 : pss_impl) (vs : List ℚ)
    (hpos : 0 < c.moving_avg_sz)
    (h1 : s1.d_tracking.score ≠ 0) (h2 : s2.d_tracking.score ≠ 0)
    (hp1 : s1.d_psr_data.length = c.moving_avg_sz)
    (hp2 : s2.d_psr_data.length = c.moving_avg_sz)
    (hc1 : s1.d_cfo_data.length = c.moving_avg_sz)
    (hc2 : s2.d_cfo_data.length = c.moving_avg_sz) :
    compute_moving_avg c
        (ring_writes c ((reset_score c s1).d_cfo_data, (reset_score c s1).d_cfo_i) vs).1
        (ring_writes c ((reset_score c s1).d_cfo_data, (reset_score c s1).d_cfo_i) vs).2 =
      compute_moving_avg c
        (ring_writes c ((reset_score c s2).d_cfo_data, (reset_score c s2).d_cfo_i) vs).1
        (ring_writes c ((reset_score c s2).d_cfo_data, (reset_score c s2).d_cfo_i) vs).2 ∧
    compute_moving_avg c
        (ring_writes c ((reset_score c s1).d_psr_data, (reset_score c s1).d_psr_i) vs).1
        (ring_writes c ((reset_score c s1).d_psr_data, (reset_score c s1).d_psr_i) vs).2 =
      compute_moving_avg c
        (ring_writes c ((reset_score c s2).d_psr_data, (reset_score c s2).d_psr_i) vs).1
        (ring_writes c ((reset_score c s2).d_psr_data, (reset_score c s2).d_psr_i) vs).2 ∧
    compute_moving_avg c
        (ring_writes c ((reset_score c s1).d_cfo_data, (reset_score c s1).d_cfo_i) vs).1
        (ring_writes c ((reset_score c s1).d_cfo_data, (reset_score c s1).d_cfo_i) vs).2 =
      (vs.drop (vs.length - c.moving_avg_sz)).sum /
        ((min vs.length c.moving_avg_sz : Nat) : ℚ) := by
  rw [(reset_score_rings c s1 h1).1, (reset_score_rings c s1 h1).2,
    (reset_score_rings c s2 h2).1, (reset_score_rings c s2 h2).2]
  rw [moving_avg_ring_writes c _ (by rw [memset_zero_length]; exact hc1) hpos vs,
    moving_avg_ring_writes c _ (by rw [memset_zero_length]; exact hc2) hpos vs,
    moving_avg_ring_writes c _ (by rw [memset_zero_length]; exact hp1) hpos vs,
    moving_avg_ring_writes c _ (by rw [memset_zero_length]; exact hp2) hpos vs]
  exact ⟨rfl, rfl, rfl⟩

theorem mean_after_reset_witness :
    0 < small_consts.moving_avg_sz ∧ locked_full.d_tracking.score ≠ 0 ∧
    after_search.d_tracking.score ≠ 0 ∧
    locked_full.d_cfo_data.length = small_consts.moving_avg_sz ∧
    after_search.d_cfo_data.length = small_consts.moving_avg_sz ∧
    compute_moving_avg small_consts
        (ring_writes small_consts ((reset_score small_consts locked_full).d_cfo_data,
          (reset_score small_consts locked_full).d_cfo_i) [3, 5]).1
        (ring_writes small_consts ((reset_score small_consts locked_full).d_cfo_data,
          (reset_score small_consts locked_full).d_cfo_i) [3, 5]).2 =
      compute_moving_avg small_consts
        (ring_writes small_consts ((reset_score small_consts after_search).d_cfo_data,
          (reset_score small_consts after_search).d_cfo_i) [3, 5]).1
        (ring_writes small_consts ((reset_score small_consts after_search).d_cfo_data,
          (reset_score small_consts after_search).d_cfo_i) [3, 5]).2 :=
  have hs : after_search.d_tracking.score ≠ 0 := by
    norm_num [after_search, general_work, output_phase, score_phase, search_phase,
      psr_over_threshold, incr_score, reset_score, locked_full, fresh, window,
      small_consts, pss_impl.make, tracking_t.stop, copy_range]
  have hp : after_search.d_psr_data.length = small_consts.moving_avg_sz := by
    norm_num [after_search, general_work, output_phase, score_phase, search_phase,
      psr_over_threshold, incr_score, reset_score, locked_full, fresh, window,
      small_consts, pss_impl.make, tracking_t.stop, copy_range]
  have hc : after_search.d_cfo_data.length = small_consts.moving_avg_sz := by
    norm_num [after_search, general_work, output_phase, score_phase, search_phase,
      psr_over_threshold, incr_score, reset_score, locked_full, fresh, window,
      small_consts, pss_impl.make, tracking_t.stop, copy_range]
  ⟨by decide, by decide, hs, rfl, hc,
    (mean_after_reset small_consts locked_full after_search [3, 5] (by decide) (by decide) hs
      rfl hp rfl hc).1⟩

end ltetrigger
